import Mathlib

/-!
# ldminfo `compat.c`: userspace emulation of the kernel block-I/O layer

A shallow embedding of `src/compat.c` (tracking allocator, sector reader,
partition table writer, log filter, leaf helpers) and theorems about it.

Conventions of the embedding
* C `int` values are `Int`s kept in `[-2^31, 2^31)` by `wrap32` (two's
  complement wrap, which is also what the conversion `size_t -> int` does).
* `size_t` / `unsigned long` values are `Nat`/`Int` reduced modulo `2^64`.
* Pointers are `Nat` addresses, `0` is `NULL`.
* A function that can fault (null dereference, access outside an object, a
  pointer that was never allocated) returns `Except Fault _`.
* What the C library decides (the address `malloc` returns) is an explicit
  argument of the function that calls it.
-/

namespace Ldminfo

/-! ## Machine integers -/

/-- Conversion of an integer to a C `int` (32 bit, two's complement). -/
def wrap32 (x : Int) : Int := (x + 2147483648) % 4294967296 - 2147483648

/-- Conversion of an integer to `size_t` / `unsigned long` (64 bit). -/
def toSizeT (x : Int) : Int := x % 18446744073709551616

/-- The value is representable as a C `int`. -/
def isInt (x : Int) : Prop := -2147483648 ≤ x ∧ x < 2147483648

instance (x : Int) : Decidable (isInt x) := by unfold isInt; infer_instance

/-- The macro `max(a, b)`: `(((a) > (b)) ? (a) : (b))`. -/
def cmax (a b : Int) : Int := if a > b then a else b

/-! ## Faults -/

/-- The ways a C operation of this file can leave defined behaviour. -/
inductive Fault
  | nullDeref     -- access through a null pointer
  | wildPointer   -- access through a pointer that is not a live tracked block
  | outOfBounds   -- access outside the bounds of an object
  deriving DecidableEq, Repr

/-! ## Memory and world state -/

/-- What a tracked block holds after its hidden header. -/
inductive Obj
  | raw                                  -- storage never written
  | page (count : Int) (bh : Nat)        -- `struct page`
  | buffer_head (b_data : Nat)           -- `struct buffer_head`, other fields zero
  | data (bytes : List Nat)              -- bytes written so far into a data block
  deriving DecidableEq, Repr

/-- A block obtained from `malloc` by `__kmalloc`: the `int` header written at
its start, followed by the usable region. -/
structure Block where
  hdr : Int
  obj : Obj
  deriving DecidableEq, Repr

/-- The open device: `size` bytes, byte `i` being `byteAt i`. -/
structure Device where
  size : Nat
  byteAt : Nat → Nat

/-- A system call issued on the global `device` descriptor. -/
inductive IOEvent
  | lseek (offset : Int)
  | read (pos : Nat) (size : Int)
  deriving DecidableEq, Repr

/-- Process-wide state: the six allocator counters, the tracked heap (keyed by
the address `malloc` returned), the device with its file position, the system
calls issued so far, the `debug` flag, the `static int ignore` of `printk`,
what has been written to standard output, `stale`, the bytes found in the
uninitialised `char buf[1024]` of `printk` (byte `i` being `stale i`), and
`freed`, the addresses passed to `free` so far, in call order. -/
structure World where
  ldm_mem_alloc : Int
  ldm_mem_free : Int
  ldm_mem_size : Int
  ldm_mem_maxa : Int
  ldm_mem_count : Int
  ldm_mem_maxc : Int
  heap : Nat → Option Block
  device : Device
  pos : Nat
  io : List IOEvent
  debug : Bool
  ignore : Bool
  out : List Nat
  stale : Nat → Nat
  freed : List Nat

/-- The state at process start: counters as initialised in the source
(`int ldm_mem_alloc = 0;` ...), nothing allocated, nothing printed. -/
def World.init (d : Device) : World :=
  { ldm_mem_alloc := 0, ldm_mem_free := 0, ldm_mem_size := 0, ldm_mem_maxa := 0,
    ldm_mem_count := 0, ldm_mem_maxc := 0, heap := fun _ => none, device := d,
    pos := 0, io := [], debug := false, ignore := false, out := [], stale := fun _ => 0,
    freed := [] }

/-- `sizeof (int)`. -/
def sizeof_int : Nat := 4

/-! ## Tracking allocator -/

/-- `__kmalloc (size, flags, fn)`. `m` is the address returned by
`malloc (size + sizeof (int))` (`0` when it fails). The counters are updated,
the size is stored through `(int *) ptr`, and `ptr + sizeof (int)` is returned.
`ldm_mem_size += size` is computed in `size_t` and converted back to `int`.
The extent of the block is not modelled: the store of the header succeeds
whenever `malloc` does. -/
def __kmalloc (size : Nat) (m : Nat) (w : World) : Except Fault (Nat × World) :=
  let alloc := wrap32 (w.ldm_mem_alloc + 1)
  let sz := wrap32 (toSizeT (toSizeT w.ldm_mem_size + size))
  let maxa := cmax w.ldm_mem_maxa sz
  let cnt := wrap32 (w.ldm_mem_count + 1)
  let maxc := cmax w.ldm_mem_maxc cnt
  if m = 0 then .error .nullDeref
  else .ok (m + sizeof_int,
    { w with ldm_mem_alloc := alloc, ldm_mem_size := sz, ldm_mem_maxa := maxa,
             ldm_mem_count := cnt, ldm_mem_maxc := maxc,
             heap := fun a => if a = m then some ⟨wrap32 size, .raw⟩ else w.heap a })

/-- The tracked block a usable pointer belongs to: the one whose `malloc`
address is `objp - sizeof (int)`. -/
def World.blockOf (w : World) (objp : Nat) : Option Block :=
  if sizeof_int ≤ objp then w.heap (objp - sizeof_int) else none

/-- `__kfree (objp, fn)`. -/
def __kfree (objp : Nat) (w : World) : Except Fault World :=
  if objp = 0 then .ok w
  else match w.blockOf objp with
    | none => .error .wildPointer
    | some b =>
      .ok { w with ldm_mem_free := wrap32 (w.ldm_mem_free + 1),
                   ldm_mem_count := wrap32 (w.ldm_mem_count - 1),
                   ldm_mem_size := wrap32 (w.ldm_mem_size - b.hdr),
                   heap := fun a => if a = objp - sizeof_int then none else w.heap a,
                   freed := w.freed ++ [objp - sizeof_int] }

/-- Modelled from the spec: the macro `kmalloc (size, flags)` of the missing
`common.h`; every allocation goes through the tracking allocator. -/
def kmalloc (size : Nat) (m : Nat) (w : World) : Except Fault (Nat × World) :=
  __kmalloc size m w

/-- Modelled from the spec: the macro `kfree (objp)` of the missing `common.h`;
every release goes through the tracking allocator. -/
def kfree (objp : Nat) (w : World) : Except Fault World :=
  __kfree objp w

/-- One call to the allocator. `alloc size m` is `__kmalloc (size, ..)` with
`malloc` returning `m`; `free objp` is `__kfree (objp, ..)`. -/
inductive Op
  | alloc (size : Nat) (m : Nat)
  | free (objp : Nat)
  deriving DecidableEq, Repr

/-- Effect of one allocator call on the world. -/
def step (w : World) : Op → Except Fault World
  | .alloc size m => (__kmalloc size m w).map Prod.snd
  | .free objp => __kfree objp w

/-- Effect of a sequence of allocator calls. -/
def run : World → List Op → Except Fault World
  | w, [] => .ok w
  | w, op :: ops =>
    match step w op with
    | .error e => .error e
    | .ok w1 => run w1 ops

/-- The worlds after each call of a sequence, in call order, as long as no
call faults. -/
def history : World → List Op → List World
  | _, [] => []
  | w, op :: ops =>
    match step w op with
    | .error _ => []
    | .ok w1 => w1 :: history w1 ops

/-- A fully paired sequence. `live` lists the `malloc` addresses of the blocks
allocated so far in the sequence and not yet released. Every `malloc` succeeds
with an address that is not live, every release is of `NULL` or of a live
block of the sequence, and at the end nothing of the sequence is live. -/
def paired : List Nat → List Op → Bool
  | live, [] => live.isEmpty
  | live, .alloc _ m :: ops => m != 0 && !live.contains m && paired (m :: live) ops
  | live, .free objp :: ops =>
    if objp = 0 then paired live ops
    else decide (sizeof_int ≤ objp) && live.contains (objp - sizeof_int)
      && paired (live.erase (objp - sizeof_int)) ops

/-! ## Kernel log filter -/

/-- Bytes of a string literal. -/
def bytes (s : String) : List Nat := s.toList.map Char.toNat

/-- The benign marker `" [LDM]"`. -/
def ldmMarker : List Nat := bytes " [LDM]"

/-- `isdigit` in the C locale. -/
def isdigit (c : Nat) : Bool := decide (48 ≤ c) && decide (c ≤ 57)

/-- What `vsnprintf (buf, sizeof (buf), fmt, args)` leaves in `char buf[1024]`
as a C string, given the bytes the format expands to. -/
def render (formatted : List Nat) : List Nat := formatted.take 1023

/-- `buf[i]` after rendering the C string `buf`: its bytes, the terminator,
then whatever the stack held. -/
def bufAt (stale : Nat → Nat) (buf : List Nat) (i : Nat) : Nat :=
  if i < buf.length then buf.getD i 0
  else if i = buf.length then 0
  else stale i

/-- The C string at `buf+3`. When the rendered text has fewer than three bytes
this lies past its terminator and is made of stale bytes. -/
def strFrom3 (stale : Nat → Nat) (buf : List Nat) : List Nat :=
  if 3 ≤ buf.length then buf.drop 3
  else ((List.range 1021).map (fun k => stale (3 + k))).takeWhile (fun c => c != 0)

/-- `strchr (buf, '\n') == NULL`. -/
def noNewline (buf : List Nat) : Bool := !buf.contains 10

/-- Body of `printk` after the text has been rendered into `buf`: the bytes
printed and the new value of `ignore`. -/
def printk_buf (debug ignore : Bool) (stale : Nat → Nat) (buf : List Nat) :
    List Nat × Bool :=
  if !debug && buf == ldmMarker then ([], ignore)
  else if !debug && bufAt stale buf 0 == 32 && isdigit (bufAt stale buf 1) then ([], ignore)
  else if ignore then ([], noNewline buf)
  else if bufAt stale buf 0 == 60 && bufAt stale buf 2 == 62 then
    if debug || bufAt stale buf 1 != 55 then (strFrom3 stale buf, ignore)
    else ([], noNewline buf)
  else (buf, ignore)

/-- `printk (fmt, ...)`, given the bytes the format expands to. -/
def printk (formatted : List Nat) (w : World) : World :=
  let r := printk_buf w.debug w.ignore w.stale (render formatted)
  { w with out := w.out ++ r.1, ignore := r.2 }

/-! ## Sector reader -/

/-- `sizeof (struct page)` on LP64: an `int`, padding, a pointer. -/
def sizeof_page : Nat := 16

/-- `sizeof (struct buffer_head)` on LP64: eight words and a two-pointer
`struct list_head`. -/
def sizeof_buffer_head : Nat := 80

/-- Modelled from the spec: the type `Sector` of the missing `ldminfo.h`, a
structure whose member `v` points to the page (`0` when empty). -/
structure Sector where
  v : Nat
  deriving DecidableEq, Repr

/-- Write an object into the tracked block the pointer `p` belongs to. -/
def setObj (p : Nat) (o : Obj) (w : World) : Except Fault World :=
  if p = 0 then .error .nullDeref
  else match w.blockOf p with
    | none => .error .wildPointer
    | some b =>
      .ok { w with heap := fun a => if a = p - sizeof_int then some ⟨b.hdr, o⟩ else w.heap a }

/-- Read `p->bh` of a `struct page *p`. -/
def page_bh (p : Nat) (w : World) : Except Fault Nat :=
  if p = 0 then .error .nullDeref
  else match w.blockOf p with
    | some ⟨_, .page _ bh⟩ => .ok bh
    | _ => .error .wildPointer

/-- Read `p->count` of a `struct page *p`. -/
def page_count (p : Nat) (w : World) : Except Fault Int :=
  if p = 0 then .error .nullDeref
  else match w.blockOf p with
    | some ⟨_, .page count _⟩ => .ok count
    | _ => .error .wildPointer

/-- Read `bh->b_data` of a `struct buffer_head *bh`. -/
def bh_b_data (bh : Nat) (w : World) : Except Fault Nat :=
  if bh = 0 then .error .nullDeref
  else match w.blockOf bh with
    | some ⟨_, .buffer_head b_data⟩ => .ok b_data
    | _ => .error .wildPointer

/-- The bytes a data pointer refers to, if it is a live data block. -/
def dataAt (p : Nat) (w : World) : Option (List Nat) :=
  match w.blockOf p with
  | some ⟨_, .data bs⟩ => some bs
  | _ => none

/-- `put_page (p)`. -/
def put_page (p : Nat) (w : World) : Except Fault World := do
  let bh ← page_bh p w
  let b_data ← bh_b_data bh w
  let w ← kfree b_data w
  let bh ← page_bh p w
  let w ← kfree bh w
  kfree p w

/-- `lseek (device, offset, SEEK_SET)`: fails with `-1` on a negative offset,
otherwise moves the file position and returns it. -/
def lseek (offset : Int) (w : World) : Int × World :=
  let w := { w with io := w.io ++ [.lseek offset] }
  if offset < 0 then (-1, w) else (offset, { w with pos := offset.toNat })

/-- `read (device, b_data, size)`: transfers the bytes available at the file
position, at most `size` (converted to `size_t`), and returns their number with
the bytes. -/
def read (size : Int) (w : World) : Int × List Nat × World :=
  let k := min (toSizeT size).toNat (w.device.size - w.pos)
  (k, (List.range k).map (fun i => w.device.byteAt (w.pos + i)),
    { w with io := w.io ++ [.read w.pos size], pos := w.pos + k })

/-- Decimal rendering of `%lld`. -/
def decimal (x : Int) : List Nat := bytes (toString x)

/-- `ldm_bread (dev, block, size)`. `m_bh` and `m_data` are the addresses
`malloc` returns for the buffer record and for the data block. -/
def ldm_bread (_dev : Nat) (block size : Int) (m_bh m_data : Nat) (w : World) :
    Except Fault (Nat × World) := do
  let offset := block * size
  let (bh, w) ← kmalloc sizeof_buffer_head m_bh w
  if bh ≠ 0 then
    let w ← setObj bh (.buffer_head 0) w
    let (b_data, w) ← kmalloc (toSizeT size).toNat m_data w
    let w ← setObj bh (.buffer_head b_data) w
    let (r, w) := lseek offset w
    if r < 0 then
      let w := printk (bytes "[CRIT] lseek to " ++ decimal offset ++ bytes " failed\n") w
      let w ← kfree bh w
      return (0, w)
    else
      let (k, bs, w) := read size w
      let w ← setObj b_data (.data bs) w
      if k < size then
        let w := printk (bytes "[CRIT] read failed\n") w
        let w ← kfree bh w
        return (0, w)
      else
        return (bh, w)
  else
    return (bh, w)

/-- `read_dev_sector (bdev, n, sect)`. `bdev` is `none` for a null pointer and
`some d` for a block device whose `bd_dev` is `d`; `sect` is `none` for a null
pointer and `some s` for a pointer to a handle holding `s`. The `unsigned long
n` is converted to the `int block` parameter of `ldm_bread`. Returns the data
pointer, the handle behind `sect` and the world. -/
def read_dev_sector (bdev : Option Nat) (n : Nat) (sect : Option Sector)
    (m_pg m_bh m_data : Nat) (w : World) :
    Except Fault (Nat × Option Sector × World) :=
  match bdev, sect with
  | none, _ => .ok (0, sect, w)
  | _, none => .ok (0, sect, w)
  | some bd_dev, some _ => do
    let (pg, w) ← kmalloc sizeof_page m_pg w
    if pg = 0 then
      return (0, sect, w)
    let w ← setObj pg (.page 0 0) w
    let c ← page_count pg w
    let w ← setObj pg (.page (wrap32 (c + 1)) 0) w
    let (bh, w) ← ldm_bread bd_dev (wrap32 n) 512 m_bh m_data w
    if bh = 0 then
      let w ← put_page pg w
      return (0, sect, w)
    let c ← page_count pg w
    let w ← setObj pg (.page c bh) w
    let b_data ← bh_b_data bh w
    return (b_data, some ⟨pg⟩, w)

/-- `put_dev_sector (Sector p)`. The handle is passed by value: `p` is the
callee's copy. Returns the copy as it is when the function ends, and the
world. -/
def put_dev_sector (p : Sector) (w : World) : Except Fault (Sector × World) := do
  let w ← put_page p.v w
  let p := { p with v := 0 }
  return (p, w)

/-- The statement `put_dev_sector (sect);` in a caller: the handle is copied
in and nothing is copied back. Returns the caller's handle after the call, and
the world. -/
def call_put_dev_sector (sect : Sector) (w : World) : Except Fault (Sector × World) := do
  let (_, w) ← put_dev_sector sect w
  return (sect, w)

/-! ## Partition table -/

/-- One entry of `parts[]`. -/
structure Partition where
  fromSect : Int
  size : Int
  deriving DecidableEq, Repr

/-- Modelled from the spec: `struct parsed_partitions` of the missing
`ldminfo.h`: the block device, the array `parts[]`, its declared capacity
`limit` and the scan limit `rich_size` (compared as `size_t`). -/
structure parsed_partitions where
  bdev : Option Nat
  parts : List Partition
  limit : Int
  rich_size : Nat
  deriving DecidableEq, Repr

/-- `read_part_sector (state, n, p)`. -/
def read_part_sector (state : parsed_partitions) (n : Nat) (p : Option Sector)
    (m_pg m_bh m_data : Nat) (w : World) :
    Except Fault (Nat × Option Sector × World) :=
  if n ≥ state.rich_size then .ok (0, p, w)
  else read_dev_sector state.bdev n p m_pg m_bh m_data w

/-- `put_partition (p, n, from, size)`. A store to `parts[n]` outside the
array is a fault. -/
def put_partition (p : parsed_partitions) (n fromSect size : Int) :
    Except Fault parsed_partitions :=
  if n < p.limit then
    if 0 ≤ n ∧ n.toNat < p.parts.length then
      .ok { p with parts := p.parts.set n.toNat ⟨fromSect, size⟩ }
    else .error .outOfBounds
  else .ok p

/-! ## Bounded string concatenation -/

/-- `strlen (s)` on a character array: the index of its first NUL byte. An
array without one is read past its end. -/
def strlen : List Nat → Except Fault Nat
  | [] => .error .outOfBounds
  | c :: cs => if c = 0 then .ok 0 else (strlen cs).map (fun n => n + 1)

/-- `memcpy (dest + off, src, len)`: `len` bytes are read from `src` and
written to `dest` from index `off` on. -/
def memcpy (dest : List Nat) (off : Nat) (src : List Nat) (len : Nat) :
    Except Fault (List Nat) :=
  if len ≤ src.length ∧ off + len ≤ dest.length then
    .ok (dest.take off ++ src.take len ++ dest.drop (off + len))
  else .error .outOfBounds

/-- The store `dest[i] = c`. -/
def storeByte (dest : List Nat) (i : Nat) (c : Nat) : Except Fault (List Nat) :=
  if i < dest.length then .ok (dest.set i c) else .error .outOfBounds

/-- `strlcat (dest, src, count)`. `dest` is `none` for a null pointer and
otherwise the character array it points into; `count` is a `size_t`. Returns
the array afterwards and the return value. All arithmetic is `size_t`
arithmetic. -/
def strlcat (dest : Option (List Nat)) (src : List Nat) (count : Nat) :
    Except Fault (Option (List Nat) × Nat) := do
  let dsize ← match dest with
    | none => .error .nullDeref
    | some d => strlen d
  let len ← strlen src
  let res := toSizeT (dsize + len)
  match dest with
  | none => return (none, (toSizeT (-1)).toNat)
  | some d =>
    let count := toSizeT (count - dsize)
    let len : Int := if (len : Int) ≥ count then toSizeT (count - 1) else len
    let d ← memcpy d dsize src len.toNat
    let d ← storeByte d (dsize + len.toNat) 0
    return (some d, res.toNat)

/-! ## Leaf helpers -/

/-- `tolower` in the C locale. -/
def tolower (c : Int) : Int := if 65 ≤ c ∧ c ≤ 90 then c + 32 else c

/-- `hex_to_bin (ch)`. -/
def hex_to_bin (ch : Int) : Int :=
  if ch ≥ 48 ∧ ch ≤ 57 then ch - 48
  else
    let ch := tolower ch
    if ch ≥ 97 ∧ ch ≤ 102 then ch - 97 + 10
    else -1

/-- Value of a byte sequence read least significant byte first. -/
def ofLE : List Nat → Nat
  | [] => 0
  | b :: bs => b + 256 * ofLE bs

/-- Value of a byte sequence read most significant byte first. -/
def ofBE (bs : List Nat) : Nat := bs.foldl (fun acc b => acc * 256 + b) 0

/-- The `w` low bytes of a value, least significant first. -/
def toLE : Nat → Nat → List Nat
  | 0, _ => []
  | w + 1, x => x % 256 :: toLE w (x / 256)

/-- The load `*(uN *) ptr` of a `w`-byte unsigned integer on a host that is
little-endian (`le = true`) or big-endian. Fewer than `w` bytes at `ptr` is a
read outside the array. -/
def loadHost (le : Bool) (w : Nat) (ptr : List Nat) : Except Fault Nat :=
  if w ≤ ptr.length then .ok (if le then ofLE (ptr.take w) else ofBE (ptr.take w))
  else .error .outOfBounds

/-- The library conversions `be16toh`, `be32toh`, `be64toh` for a width of `w`
bytes: the bytes of the value in reverse order on a little-endian host, the
value itself on a big-endian host. -/
def betoh (le : Bool) (w : Nat) (x : Nat) : Nat := if le then ofBE (toLE w x) else x

/-- `get_unaligned_be64 (ptr)`. -/
def get_unaligned_be64 (le : Bool) (ptr : List Nat) : Except Fault Nat :=
  (loadHost le 8 ptr).map (betoh le 8)

/-- `get_unaligned_be32 (ptr)`. -/
def get_unaligned_be32 (le : Bool) (ptr : List Nat) : Except Fault Nat :=
  (loadHost le 4 ptr).map (betoh le 4)

/-- `get_unaligned_be16 (ptr)`. -/
def get_unaligned_be16 (le : Bool) (ptr : List Nat) : Except Fault Nat :=
  (loadHost le 2 ptr).map (betoh le 2)

/-! ## Doubly linked lists -/

/-- Modelled from the spec: `struct list_head` of the missing `common.h`. The
memory of all list nodes: `next a` and `prev a` are the two pointers of the
node at address `a`. -/
structure ListMem where
  next : Nat → Nat
  prev : Nat → Nat

/-- The store `a->next = v`. -/
def ListMem.setNext (m : ListMem) (a v : Nat) : ListMem :=
  { m with next := fun x => if x = a then v else m.next x }

/-- The store `a->prev = v`. -/
def ListMem.setPrev (m : ListMem) (a v : Nat) : ListMem :=
  { m with prev := fun x => if x = a then v else m.prev x }

/-- `__list_add (new, prev, next)`. -/
def __list_add (new prev next : Nat) (m : ListMem) : ListMem :=
  (((m.setPrev next new).setNext new next).setPrev new prev).setNext prev new

/-- `list_add_tail (new, head)`. -/
def list_add_tail (new head : Nat) (m : ListMem) : ListMem :=
  __list_add new (m.prev head) head m

/-- `list_add (new, head)`. -/
def list_add (new head : Nat) (m : ListMem) : ListMem :=
  __list_add new head (m.next head) m

/-- `INIT_LIST_HEAD (list)`. -/
def INIT_LIST_HEAD (list : Nat) (m : ListMem) : ListMem :=
  (m.setNext list list).setPrev list list

/-! ## Auxiliary definitions for the statements -/

/-- Two integers agree modulo `2^32`. -/
def cong32 (a b : Int) : Prop := ∃ k : Int, a = b + k * 4294967296

/-- Header of the tracked block with `malloc` address `a` (`0` if none). -/
def hdrOf (w : World) (a : Nat) : Int :=
  match w.heap a with
  | some b => b.hdr
  | none => 0

/-- The rendered text begins with a space followed by a digit. -/
def spaceDigit : List Nat → Bool
  | 32 :: c :: _ => isdigit c
  | _ => false

/-- A device with no content. -/
def emptyDevice : Device := ⟨0, fun _ => 0⟩

/-- A device of 100 bytes: shorter than one sector. -/
def shortDevice : Device := ⟨100, fun i => i % 256⟩

/-- A device of 4 TiB whose sector `k` is filled with the byte `k % 251`. -/
def bigDevice : Device := ⟨4398046511104, fun i => (i / 512) % 251⟩

/-- A table of four entries, all of them usable. -/
def table4 : parsed_partitions :=
  { bdev := some 0, parts := List.replicate 4 ⟨0, 0⟩, limit := 4, rich_size := 10 }

/-- The outputs of a sequence of `printk` calls with a fixed `debug` flag,
starting with `ignore` as given. Each call comes with the stale bytes of its
buffer and its rendered text. -/
def printkSeq (debug : Bool) : Bool → List ((Nat → Nat) × List Nat) → List (List Nat)
  | _, [] => []
  | ignore, (stale, buf) :: rest =>
    (printk_buf debug ignore stale buf).1
      :: printkSeq debug (printk_buf debug ignore stale buf).2 rest

/-- The bytes a call of `printk` finds in its buffer when the previous call
rendered `buf` into the same stack slot: that text and its terminator. -/
def staleAfter (buf : List Nat) : Nat → Nat := fun i => (buf ++ [0]).getD i 0

/-- The world after a successful `__kmalloc (size)` whose `malloc` returned
`m`. -/
@[simps]
def allocW (size m : Nat) (w : World) : World :=
  { w with ldm_mem_alloc := wrap32 (w.ldm_mem_alloc + 1),
           ldm_mem_size := wrap32 (toSizeT (toSizeT w.ldm_mem_size + size)),
           ldm_mem_maxa := cmax w.ldm_mem_maxa (wrap32 (toSizeT (toSizeT w.ldm_mem_size + size))),
           ldm_mem_count := wrap32 (w.ldm_mem_count + 1),
           ldm_mem_maxc := cmax w.ldm_mem_maxc (wrap32 (w.ldm_mem_count + 1)),
           heap := fun a => if a = m then some ⟨wrap32 size, .raw⟩ else w.heap a }

/-- The world after `__kfree` of the block at `malloc` address `m` whose
header holds `hdr`. -/
@[simps]
def freeW (m : Nat) (hdr : Int) (w : World) : World :=
  { w with ldm_mem_free := wrap32 (w.ldm_mem_free + 1),
           ldm_mem_count := wrap32 (w.ldm_mem_count - 1),
           ldm_mem_size := wrap32 (w.ldm_mem_size - hdr),
           heap := fun a => if a = m then none else w.heap a,
           freed := w.freed ++ [m] }

/-- The world after the object `o` is written into the block at `malloc`
address `m` whose header holds `hdr`. -/
@[simps]
def storeW (m : Nat) (hdr : Int) (o : Obj) (w : World) : World :=
  { w with heap := fun a => if a = m then some ⟨hdr, o⟩ else w.heap a }

/-- The world after a successful `lseek` to `offset` followed by a `read` of
512 bytes that are all available. -/
@[simps]
def sectorReadW (offset : Nat) (w : World) : World :=
  { w with io := w.io ++ [.lseek offset] ++ [.read offset 512], pos := offset + 512 }

/-- The 512 bytes of the device from byte `offset` on. -/
def sectorBytes (d : Device) (offset : Nat) : List Nat :=
  (List.range 512).map (fun i => d.byteAt (offset + i))

/-- The world after a successful `ldm_bread (dev, block, 512)`. -/
def breadW (block : Int) (m_bh m_data : Nat) (w : World) : World :=
  storeW m_data (wrap32 512) (.data (sectorBytes w.device (block * 512).toNat))
    (sectorReadW (block * 512).toNat
      (storeW m_bh (wrap32 80) (.buffer_head (m_data + sizeof_int))
        (allocW 512 m_data
          (storeW m_bh (wrap32 80) (.buffer_head 0) (allocW 80 m_bh w)))))

/-- The world after a successful `read_dev_sector (bdev, n, sect)`. -/
def readW (n : Nat) (m_pg m_bh m_data : Nat) (w : World) : World :=
  storeW m_pg (wrap32 16) (.page (wrap32 (0 + 1)) (m_bh + sizeof_int))
    (breadW (wrap32 n) m_bh m_data
      (storeW m_pg (wrap32 16) (.page (wrap32 (0 + 1)) 0)
        (storeW m_pg (wrap32 16) (.page 0 0) (allocW 16 m_pg w))))

/-- Consecutive nodes of a sequence are linked in both directions. -/
def linked (m : ListMem) : List Nat → Bool
  | a :: b :: rest => m.next a == b && m.prev b == a && linked m (b :: rest)
  | _ => true

/-- The circular list with sentinel `head` holds exactly the nodes `xs`, in
this order: the nodes are distinct and following `next` from `head` visits
`xs` and comes back to `head`, `prev` leading back at every step. -/
def IsList (m : ListMem) (head : Nat) (xs : List Nat) : Prop :=
  (head :: xs).Nodup ∧ linked m (head :: xs ++ [head]) = true

instance (m : ListMem) (head : Nat) (xs : List Nat) : Decidable (IsList m head xs) := by
  unfold IsList; infer_instance

/-- Every node of the list satisfies `x->next->prev == x` and
`x->prev->next == x`. -/
def WellFormed (m : ListMem) (nodes : List Nat) : Prop :=
  ∀ x ∈ nodes, m.prev (m.next x) = x ∧ m.next (m.prev x) = x

/-- A fresh list to which the nodes are added with `list_add_tail`, one after
the other. -/
def addAllTail (head : Nat) (nodes : List Nat) (m : ListMem) : ListMem :=
  nodes.foldl (fun m n => list_add_tail n head m) (INIT_LIST_HEAD head m)

/-- A fresh list to which the nodes are added with `list_add`, one after the
other. -/
def addAllHead (head : Nat) (nodes : List Nat) (m : ListMem) : ListMem :=
  nodes.foldl (fun m n => list_add n head m) (INIT_LIST_HEAD head m)

/-- A memory of list nodes in which no pointer has been set. -/
def blankListMem : ListMem := ⟨fun _ => 0, fun _ => 0⟩

/-! ## Tracking allocator: arithmetic of the counters -/

theorem wrap32_isInt (x : Int) : isInt (wrap32 x) := by
  unfold isInt wrap32; omega

theorem wrap32_of_isInt {x : Int} (h : isInt x) : wrap32 x = x := by
  unfold isInt at h; unfold wrap32; omega

theorem wrap32_congr (x : Int) : cong32 (wrap32 x) x := by
  refine ⟨-((x + 2147483648) / 4294967296), ?_⟩
  unfold wrap32
  rw [Int.emod_def]
  ring

theorem cong32_isInt_eq {a b : Int} (h : cong32 a b) (ha : isInt a) (hb : isInt b) : a = b := by
  obtain ⟨k, hk⟩ := h
  unfold isInt at ha hb
  have hk0 : k = 0 := by
    by_contra hne
    rcases Int.lt_or_gt_of_ne hne with hlt | hgt
    · have : k ≤ -1 := by omega
      nlinarith
    · have : 1 ≤ k := by omega
      nlinarith
  rw [hk, hk0]; ring

theorem wrap32_add_size (v : Int) (size : Nat) :
    wrap32 (toSizeT (toSizeT v + size)) = wrap32 (v + size) := by
  have h1 : cong32 (wrap32 (toSizeT (toSizeT v + size))) (v + size) := by
    obtain ⟨k, hk⟩ := wrap32_congr (toSizeT (toSizeT v + size))
    refine ⟨k - 4294967296 * ((v % 18446744073709551616 + size) / 18446744073709551616)
      - 4294967296 * (v / 18446744073709551616), ?_⟩
    rw [hk]
    unfold toSizeT
    rw [Int.emod_def (v % 18446744073709551616 + size), Int.emod_def v]
    ring
  obtain ⟨k2, hk2⟩ := wrap32_congr (v + size)
  have h2 : cong32 (wrap32 (toSizeT (toSizeT v + size))) (wrap32 (v + size)) := by
    obtain ⟨k1, hk1⟩ := h1
    exact ⟨k1 - k2, by rw [hk1, hk2]; ring⟩
  exact cong32_isInt_eq h2 (wrap32_isInt _) (wrap32_isInt _)

theorem kmalloc_spec (size m : Nat) (w : World) (hm : m ≠ 0) :
    ∃ w1, __kmalloc size m w = .ok (m + sizeof_int, w1) ∧
      w1.ldm_mem_size = wrap32 (w.ldm_mem_size + size) ∧
      w1.ldm_mem_count = wrap32 (w.ldm_mem_count + 1) ∧
      w1.heap = fun a => if a = m then some ⟨wrap32 size, .raw⟩ else w.heap a := by
  simp only [__kmalloc, if_neg hm]
  exact ⟨_, rfl, wrap32_add_size _ _, rfl, rfl⟩

theorem kfree_spec (objp : Nat) (w : World) (b : Block) (h0 : objp ≠ 0)
    (hb : w.blockOf objp = some b) :
    ∃ w1, __kfree objp w = .ok w1 ∧
      w1.ldm_mem_size = wrap32 (w.ldm_mem_size - b.hdr) ∧
      w1.ldm_mem_count = wrap32 (w.ldm_mem_count - 1) ∧
      w1.heap = fun a => if a = objp - sizeof_int then none else w.heap a := by
  simp only [__kfree, if_neg h0, hb]
  exact ⟨_, rfl, rfl, rfl, rfl⟩

theorem run_paired_aux (ops : List Op) : ∀ (w : World) (live : List Nat),
    live.Nodup → (∀ a ∈ live, a ≠ 0 ∧ (w.heap a).isSome = true) →
    isInt w.ldm_mem_size → isInt w.ldm_mem_count → paired live ops = true →
    ∃ w1, run w ops = .ok w1 ∧ isInt w1.ldm_mem_size ∧ isInt w1.ldm_mem_count ∧
      cong32 w1.ldm_mem_size (w.ldm_mem_size - (live.map (hdrOf w)).sum) ∧
      cong32 w1.ldm_mem_count (w.ldm_mem_count - live.length) := by
  induction ops with
  | nil =>
    intro w live _ _ hs hc hp
    have hl : live = [] := by simpa [paired] using hp
    subst hl
    exact ⟨w, rfl, hs, hc, ⟨0, by simp⟩, ⟨0, by simp⟩⟩
  | cons op ops ih =>
    intro w live hnd hlive hs hc hp
    cases op with
    | alloc size m =>
      simp only [paired, Bool.and_eq_true, bne_iff_ne, ne_eq, Bool.not_eq_true_eq_eq_false] at hp
      obtain ⟨⟨hm, hfresh⟩, hrest⟩ := hp
      have hfresh2 : m ∉ live := by simpa using hfresh
      obtain ⟨w0, hk, hsize, hcount, hheap⟩ := kmalloc_spec size m w hm
      have hsame : ∀ a ∈ live, w0.heap a = w.heap a := by
        intro a ha
        have hne : a ≠ m := fun h => hfresh2 (h ▸ ha)
        simp [hheap, hne]
      have hs0 : isInt w0.ldm_mem_size := by rw [hsize]; exact wrap32_isInt _
      have hc0 : isInt w0.ldm_mem_count := by rw [hcount]; exact wrap32_isInt _
      obtain ⟨w1, hrun, hs1, hc1, ⟨k, hsz⟩, ⟨j, hcn⟩⟩ := ih w0 (m :: live)
        (List.nodup_cons.mpr ⟨hfresh2, hnd⟩)
        (by
          intro a ha
          rcases List.mem_cons.mp ha with rfl | ha
          · exact ⟨hm, by simp [hheap]⟩
          · exact ⟨(hlive a ha).1, by rw [hsame a ha]; exact (hlive a ha).2⟩)
        hs0 hc0 hrest
      refine ⟨w1, ?_, hs1, hc1, ?_, ?_⟩
      · simp only [run, step, hk, Except.map]
        exact hrun
      · have hsum : (live.map (hdrOf w0)).sum = (live.map (hdrOf w)).sum := by
          congr 1
          apply List.map_congr_left
          intro a ha
          simp [hdrOf, hsame a ha]
        have hh : hdrOf w0 m = wrap32 size := by simp [hdrOf, hheap]
        simp only [List.map_cons, List.sum_cons] at hsz
        rw [hh, hsum, hsize] at hsz
        obtain ⟨k1, h1⟩ := wrap32_congr (w.ldm_mem_size + size)
        obtain ⟨k2, h2⟩ := wrap32_congr size
        exact ⟨k + k1 - k2, by rw [hsz, h1, h2]; ring⟩
      · simp only [List.length_cons] at hcn
        rw [hcount] at hcn
        obtain ⟨k1, h1⟩ := wrap32_congr (w.ldm_mem_count + 1)
        exact ⟨j + k1, by rw [hcn, h1]; push_cast; ring⟩
    | free objp =>
      by_cases h0 : objp = 0
      · subst h0
        simp only [paired, if_true] at hp
        obtain ⟨w1, hrun, hs1, hc1, hsz, hcn⟩ := ih w live hnd hlive hs hc hp
        exact ⟨w1, by simpa [run, step, __kfree] using hrun, hs1, hc1, hsz, hcn⟩
      · simp only [paired, if_neg h0, Bool.and_eq_true, decide_eq_true_eq] at hp
        obtain ⟨⟨h4, hmem⟩, hrest⟩ := hp
        have hmem2 : objp - sizeof_int ∈ live := by simpa using hmem
        obtain ⟨_, hsome⟩ := hlive _ hmem2
        obtain ⟨b, hb⟩ := Option.isSome_iff_exists.mp hsome
        have hblock : w.blockOf objp = some b := by simp [World.blockOf, h4, hb]
        obtain ⟨w0, hk, hsize, hcount, hheap⟩ := kfree_spec objp w b h0 hblock
        have hsame : ∀ a ∈ live.erase (objp - sizeof_int), w0.heap a = w.heap a := by
          intro a ha
          have hne : a ≠ objp - sizeof_int := fun h => by
            rw [h] at ha; exact (List.Nodup.not_mem_erase hnd) ha
          simp [hheap, hne]
        have hs0 : isInt w0.ldm_mem_size := by rw [hsize]; exact wrap32_isInt _
        have hc0 : isInt w0.ldm_mem_count := by rw [hcount]; exact wrap32_isInt _
        obtain ⟨w1, hrun, hs1, hc1, ⟨k, hsz⟩, ⟨j, hcn⟩⟩ := ih w0
          (live.erase (objp - sizeof_int)) (hnd.erase _)
          (by
            intro a ha
            have ha2 : a ∈ live := List.mem_of_mem_erase ha
            exact ⟨(hlive a ha2).1, by rw [hsame a ha]; exact (hlive a ha2).2⟩)
          hs0 hc0 hrest
        refine ⟨w1, ?_, hs1, hc1, ?_, ?_⟩
        · simp only [run, step, hk]
          exact hrun
        · have hsum : ((live.erase (objp - sizeof_int)).map (hdrOf w0)).sum
              = ((live.erase (objp - sizeof_int)).map (hdrOf w)).sum := by
            congr 1
            apply List.map_congr_left
            intro a ha
            simp [hdrOf, hsame a ha]
          rw [hsum, hsize] at hsz
          have herase := List.sum_map_erase (hdrOf w) hmem2
          have hhdr : hdrOf w (objp - sizeof_int) = b.hdr := by simp [hdrOf, hb]
          rw [hhdr] at herase
          obtain ⟨k1, h1⟩ := wrap32_congr (w.ldm_mem_size - b.hdr)
          exact ⟨k + k1, by rw [hsz, h1, ← herase]; ring⟩
        · have hlen : ((live.erase (objp - sizeof_int)).length : Int) + 1 = live.length := by
            rw [List.length_erase_of_mem hmem2]
            have : 0 < live.length := List.length_pos_of_mem hmem2
            omega
          rw [hcount] at hcn
          obtain ⟨k1, h1⟩ := wrap32_congr (w.ldm_mem_count - 1)
          exact ⟨j + k1, by rw [hcn, h1, ← hlen]; ring⟩

/-- C1: from any starting counters, a fully paired sequence of `__kmalloc` /
`__kfree` calls runs to completion and leaves `ldm_mem_size` and
`ldm_mem_count` at their starting values, whatever sizes were requested. -/
theorem paired_sequence_restores_live_counters (w : World) (ops : List Op)
    (hs : isInt w.ldm_mem_size) (hc : isInt w.ldm_mem_count)
    (hp : paired [] ops = true) :
    ∃ w1, run w ops = .ok w1 ∧ w1.ldm_mem_size = w.ldm_mem_size ∧
      w1.ldm_mem_count = w.ldm_mem_count := by
  obtain ⟨w1, hrun, hs1, hc1, hsz, hcn⟩ :=
    run_paired_aux ops w [] List.nodup_nil (by simp) hs hc hp
  refine ⟨w1, hrun, cong32_isInt_eq ?_ hs1 hs, cong32_isInt_eq ?_ hc1 hc⟩
  · simpa using hsz
  · simpa using hcn

/-- C1 at a concrete input: live bytes at `INT_MAX`, a negative block count,
two interleaved blocks, one of them of `2^32 - 1` bytes, and a release of
`NULL`. -/
theorem paired_sequence_restores_live_counters_witness :
    isInt 2147483647 ∧ isInt (-5) ∧
    paired [] [.alloc 4294967295 4096, .alloc 16 8192, .free 4100, .free 0, .free 8196] = true ∧
    ∃ w1, run { World.init emptyDevice with ldm_mem_size := 2147483647, ldm_mem_count := -5 }
        [.alloc 4294967295 4096, .alloc 16 8192, .free 4100, .free 0, .free 8196] = .ok w1 ∧
      w1.ldm_mem_size = 2147483647 ∧ w1.ldm_mem_count = -5 :=
  ⟨by decide, by decide, by decide,
   paired_sequence_restores_live_counters
    { World.init emptyDevice with ldm_mem_size := 2147483647, ldm_mem_count := -5 }
    [.alloc 4294967295 4096, .alloc 16 8192, .free 4100, .free 0, .free 8196]
    (by decide) (by decide) (by decide)⟩

/-- C2 at a failing input: from the all-zero counters, allocate `2^32 - 1`
bytes, allocate 1 byte, release the first block. `ldm_mem_size` takes the
values `-1, 0, 1` while `ldm_mem_maxa` stays `0`: after the third call the
high-water mark is below the live byte total. -/
theorem high_water_bytes_misses_maximum :
    (history (World.init emptyDevice)
      [.alloc 4294967295 4096, .alloc 1 8192, .free 4100]).map (fun w => w.ldm_mem_size)
      = [-1, 0, 1] ∧
    (history (World.init emptyDevice)
      [.alloc 4294967295 4096, .alloc 1 8192, .free 4100]).map (fun w => w.ldm_mem_maxa)
      = [0, 0, 0] := by
  constructor <;> rfl

/-! ## Sector reader -/

/-- C3 at a failing input: sector 0 of a device of 100 bytes, all allocations
succeeding. The seek succeeds and the read returns 100 bytes. `ldm_bread`
releases the buffer record only and returns `NULL`, leaving one block of 512
bytes live; `read_dev_sector` then calls `put_page` on a page whose `bh` is
still null, and faults instead of returning. -/
theorem read_dev_sector_short_read_faults :
    (ldm_bread 0 0 512 8192 12288 (World.init shortDevice)).toOption.map
        (fun r => (r.1, r.2.io, r.2.ldm_mem_alloc, r.2.ldm_mem_free, r.2.ldm_mem_count,
          r.2.ldm_mem_size))
      = some (0, [.lseek 0, .read 0 512], 2, 1, 1, 512) ∧
    (match read_dev_sector (some 0) 0 (some ⟨0⟩) 4096 8192 12288 (World.init shortDevice) with
      | .error e => some e
      | .ok _ => none) = some .nullDeref := by
  constructor <;> rfl

set_option maxRecDepth 100000 in
/-- C4 at a failing input: sector `2^32` of a 4 TiB device. The index is
converted to the `int block` of `ldm_bread`, which makes it 0: the seek goes to
byte 0 instead of byte `2^41`, the call succeeds, and the data returned are the
bytes of sector 0 (all `0`) where the device holds `123` at the requested
sector. -/
theorem read_dev_sector_truncates_sector_index :
    (read_dev_sector (some 0) 4294967296 (some ⟨0⟩) 4096 8192 12288
        (World.init bigDevice)).toOption.map (fun r => (r.2.2.io, dataAt r.1 r.2.2))
      = some ([.lseek 0, .read 0 512], some (List.replicate 512 0)) ∧
    (List.range 512).map (fun i => bigDevice.byteAt (4294967296 * 512 + i))
      = List.replicate 512 123 := by
  constructor <;> rfl

/-- C5: `read_part_sector` with `n >= rich_size` returns `NULL` and leaves the
world (counters, heap, device position, system calls issued) and the handle as
they were; with `n < rich_size` it is `read_dev_sector (state->bdev, n, p)`. -/
theorem read_part_sector_bounds (state : parsed_partitions) (n : Nat) (p : Option Sector)
    (m_pg m_bh m_data : Nat) (w : World) :
    (state.rich_size ≤ n →
      read_part_sector state n p m_pg m_bh m_data w = .ok (0, p, w)) ∧
    (n < state.rich_size →
      read_part_sector state n p m_pg m_bh m_data w
        = read_dev_sector state.bdev n p m_pg m_bh m_data w) := by
  constructor
  · intro h
    simp [read_part_sector, h]
  · intro h
    simp [read_part_sector, Nat.not_le.mpr h]

/-- C5 at concrete inputs: scan limit 10, sector 10 refused and sector 3
delegated. -/
theorem read_part_sector_bounds_witness :
    (table4.rich_size ≤ 10 ∧
      read_part_sector table4 10 (some ⟨0⟩) 4096 8192 12288 (World.init bigDevice)
        = .ok (0, some ⟨0⟩, World.init bigDevice)) ∧
    (3 < table4.rich_size ∧
      read_part_sector table4 3 (some ⟨0⟩) 4096 8192 12288 (World.init bigDevice)
        = read_dev_sector table4.bdev 3 (some ⟨0⟩) 4096 8192 12288 (World.init bigDevice)) :=
  ⟨⟨by decide, (read_part_sector_bounds table4 10 (some ⟨0⟩) 4096 8192 12288
      (World.init bigDevice)).1 (by decide)⟩,
   ⟨by decide, (read_part_sector_bounds table4 3 (some ⟨0⟩) 4096 8192 12288
      (World.init bigDevice)).2 (by decide)⟩⟩

/-- C7 at a failing input: sector 3 is read, giving the live handle `4100`, and
released with `put_dev_sector (sect)`. The call clears its own copy of the
handle; afterwards the caller's handle still holds `4100`, the address of a
page that is no longer allocated. -/
theorem put_dev_sector_leaves_caller_handle :
    ((read_dev_sector (some 0) 3 (some ⟨0⟩) 4096 8192 12288 (World.init bigDevice)).bind
        (fun r => (put_dev_sector ⟨4100⟩ r.2.2).map (fun q => (r.2.1, q.1)))).toOption
      = some (some ⟨4100⟩, ⟨0⟩) ∧
    ((read_dev_sector (some 0) 3 (some ⟨0⟩) 4096 8192 12288 (World.init bigDevice)).bind
        (fun r => call_put_dev_sector ⟨4100⟩ r.2.2)).toOption.map
        (fun q => (q.1, (q.2.blockOf q.1.v).isSome, q.2.ldm_mem_count))
      = some (⟨4100⟩, false, 0) := by
  constructor <;> rfl

/-! ## Partition table -/

/-- C6: when `n >= limit` the table is returned unchanged; when
`0 <= n < limit` (the array holding at least `limit` entries) entry `n` becomes
`(from, size)` and every other entry, the number of entries, `limit` and the
other fields are unchanged. -/
theorem put_partition_frame (p : parsed_partitions) (n fromSect size : Int)
    (hcap : p.limit ≤ p.parts.length) :
    (p.limit ≤ n → put_partition p n fromSect size = .ok p) ∧
    (0 ≤ n → n < p.limit →
      ∃ p1, put_partition p n fromSect size = .ok p1 ∧
        p1.parts[n.toNat]? = some ⟨fromSect, size⟩ ∧
        (∀ i, i ≠ n.toNat → p1.parts[i]? = p.parts[i]?) ∧
        p1.parts.length = p.parts.length ∧ p1.limit = p.limit ∧
        p1.bdev = p.bdev ∧ p1.rich_size = p.rich_size) := by
  constructor
  · intro h
    simp [put_partition, Int.not_lt.mpr h]
  · intro h0 hlt
    have hlen : n.toNat < p.parts.length := by omega
    refine ⟨{ p with parts := p.parts.set n.toNat ⟨fromSect, size⟩ }, ?_, ?_, ?_, ?_, rfl, rfl, rfl⟩
    · simp [put_partition, hlt, h0, hlen]
    · simp [hlen]
    · intro i hi
      simp [List.getElem?_set, Ne.symm hi]
    · simp

/-- C6 at concrete inputs: a table of capacity 4, index 4 dropped and index 2
written. -/
theorem put_partition_frame_witness :
    table4.limit ≤ (table4.parts.length : Int) ∧
    ((4 : Int) ≥ table4.limit ∧ put_partition table4 4 7 9 = .ok table4) ∧
    ((0 : Int) ≤ 2 ∧ (2 : Int) < table4.limit ∧
      ∃ p1, put_partition table4 2 7 9 = .ok p1 ∧
        p1.parts[(2 : Int).toNat]? = some ⟨7, 9⟩ ∧
        (∀ i, i ≠ (2 : Int).toNat → p1.parts[i]? = table4.parts[i]?) ∧
        p1.parts.length = table4.parts.length ∧ p1.limit = table4.limit ∧
        p1.bdev = table4.bdev ∧ p1.rich_size = table4.rich_size) :=
  ⟨by decide,
   ⟨by decide, (put_partition_frame table4 4 7 9 (by decide)).1 (by decide)⟩,
   ⟨by decide, by decide, (put_partition_frame table4 2 7 9 (by decide)).2 (by decide) (by decide)⟩⟩

/-! ## Kernel log filter -/

theorem bufAt_spaceDigit (stale : Nat → Nat) (buf : List Nat) :
    (bufAt stale buf 0 == 32 && isdigit (bufAt stale buf 1)) = spaceDigit buf := by
  match buf with
  | [] => simp [bufAt, spaceDigit]
  | [c] =>
    by_cases hc : c = 32
    · subst hc; simp [bufAt, spaceDigit, isdigit]
    · simp [bufAt, spaceDigit, hc]
  | c :: c1 :: rest =>
    by_cases hc : c = 32
    · subst hc; simp [bufAt, spaceDigit]
    · simp [bufAt, spaceDigit, hc]

/-- C10 as stated fails: in the Suppressing state with debug off, the text
`" 1\n"` contains a newline and the state stays Suppressing. -/
theorem printk_suppressing_space_digit_newline :
    printk_buf false true (fun _ => 0) (bytes " 1\n") = ([], true) ∧
    noNewline (bytes " 1\n") = false := by
  constructor <;> decide

/-- C10 amended: in the Suppressing state `printk` prints nothing, for every
rendered text and either value of `debug`; the state stays Suppressing when
debug is off and the text begins with a space followed by a digit, and
otherwise becomes Normal if the text contains a newline and stays Suppressing
if it does not (the benign marker included). -/
theorem printk_suppressing (debug : Bool) (stale : Nat → Nat) (buf : List Nat) :
    (printk_buf debug true stale buf).1 = [] ∧
    (printk_buf debug true stale buf).2
      = if !debug && spaceDigit buf then true else noNewline buf := by
  by_cases hm : buf = ldmMarker
  · subst hm
    have h1 : spaceDigit ldmMarker = false := by decide
    have h2 : noNewline ldmMarker = true := by decide
    cases debug <;> simp [printk_buf, bufAt_spaceDigit, h1, h2]
  · cases debug <;> cases hsd : spaceDigit buf <;>
      simp [printk_buf, bufAt_spaceDigit, hm, hsd]

/-! ## Bounded string concatenation -/

theorem strlen_lt : ∀ (l : List Nat) (n : Nat), strlen l = .ok n → n < l.length
  | [], n, h => by simp [strlen] at h
  | c :: cs, n, h => by
    by_cases hc : c = 0
    · simp [strlen, hc] at h
      simp [← h]
    · simp only [strlen, if_neg hc] at h
      cases hcs : strlen cs with
      | error e => simp [hcs, Except.map] at h
      | ok k =>
        simp [hcs, Except.map] at h
        have := strlen_lt cs k hcs
        simp only [List.length_cons]
        omega

theorem toSizeT_of_lt {x : Int} (h0 : 0 ≤ x) (h1 : x < 18446744073709551616) :
    toSizeT x = x := Int.emod_eq_of_lt h0 h1

/-- C8: for a destination array holding a string of length `d`, a source
string of length `s` and a capacity `count` with `d < count` (the array having
at least `count` bytes), `strlcat` leaves the old content followed by the first
`min s (count - d - 1)` bytes of the source and a terminator, the bytes after
it untouched, and returns `d + s`. -/
theorem strlcat_appends (dest src : List Nat) (count d s : Nat)
    (hd : strlen dest = .ok d) (hs : strlen src = .ok s)
    (hdc : d < count) (hcap : count ≤ dest.length)
    (hcnt : count < 18446744073709551616) (hres : d + s < 18446744073709551616) :
    strlcat (some dest) src count
      = .ok (some (dest.take d ++ src.take (min s (count - d - 1))
              ++ 0 :: dest.drop (d + min s (count - d - 1) + 1)), d + s) := by
  have hdl := strlen_lt dest d hd
  have hsl := strlen_lt src s hs
  have hcount : toSizeT ((count : Int) - d) = ((count - d : Nat) : Int) := by
    rw [toSizeT_of_lt (by omega) (by omega)]; omega
  have hres2 : toSizeT ((d : Int) + s) = ((d + s : Nat) : Int) := by
    rw [toSizeT_of_lt (by omega) (by omega)]; omega
  simp only [strlcat, hd, hs, bind, Except.bind, pure, Except.pure, hcount, hres2]
  have hlen : (if (s : Int) ≥ ((count - d : Nat) : Int) then toSizeT (((count - d : Nat) : Int) - 1)
      else (s : Int)).toNat = min s (count - d - 1) := by
    split
    · rw [toSizeT_of_lt (by omega) (by omega)]; omega
    · omega
  rw [hlen]
  generalize hk : min s (count - d - 1) = k
  have hks : k ≤ s := by omega
  have hkc : d + k < count := by omega
  have hmem : memcpy dest d src k = .ok (dest.take d ++ src.take k ++ dest.drop (d + k)) := by
    have : k ≤ src.length ∧ d + k ≤ dest.length := ⟨by omega, by omega⟩
    simp [memcpy, this]
  have hpre : (dest.take d ++ src.take k).length = d + k := by
    simp only [List.length_append, List.length_take]; omega
  have hdrop : dest.drop (d + k) = dest.getD (d + k) 0 :: dest.drop (d + k + 1) := by
    rw [List.getD_eq_getElem dest 0 (by omega : d + k < dest.length)]
    exact List.drop_eq_getElem_cons (by omega)
  have hstore : storeByte (dest.take d ++ src.take k ++ dest.drop (d + k)) (d + k) 0
      = .ok (dest.take d ++ src.take k ++ 0 :: dest.drop (d + k + 1)) := by
    have hl : d + k < (dest.take d ++ src.take k ++ dest.drop (d + k)).length := by
      rw [List.length_append, hpre, List.length_drop]; omega
    simp only [storeByte, if_pos hl]
    rw [hdrop, ← hpre, List.set_append_right _ _ (le_refl _)]
    simp
  simp only [hmem, hstore]
  simp
  omega
/-- C8 at a concrete input: `"abcd"` in an array of 8 bytes with `count = 8`
(4 bytes free) and the source `"0123456789"`: 3 bytes are appended, giving
`"abcd012"`, and 14 is returned. -/
theorem strlcat_appends_witness :
    strlen [97, 98, 99, 100, 0, 0, 0, 0] = .ok 4 ∧
    strlen (bytes "0123456789" ++ [0]) = .ok 10 ∧ 4 < 8 ∧
    8 ≤ [97, 98, 99, 100, 0, 0, 0, 0].length ∧
    8 < 18446744073709551616 ∧ 4 + 10 < 18446744073709551616 ∧
    strlcat (some [97, 98, 99, 100, 0, 0, 0, 0]) (bytes "0123456789" ++ [0]) 8
      = .ok (some ([97, 98, 99, 100, 0, 0, 0, 0].take 4
              ++ (bytes "0123456789" ++ [0]).take (min 10 (8 - 4 - 1))
              ++ 0 :: [97, 98, 99, 100, 0, 0, 0, 0].drop (4 + min 10 (8 - 4 - 1) + 1)), 4 + 10) ∧
    [97, 98, 99, 100, 0, 0, 0, 0].take 4 ++ (bytes "0123456789" ++ [0]).take (min 10 (8 - 4 - 1))
        ++ 0 :: [97, 98, 99, 100, 0, 0, 0, 0].drop (4 + min 10 (8 - 4 - 1) + 1)
      = bytes "abcd012" ++ [0] :=
  ⟨rfl, rfl, by decide, by decide, by decide, by decide,
   strlcat_appends [97, 98, 99, 100, 0, 0, 0, 0] (bytes "0123456789" ++ [0]) 8 4 10
     rfl rfl (by decide) (by decide) (by decide) (by decide), by decide⟩

/-- C9 at failing inputs: the destination holds `"abcd"`, of length 4. With
`count = 2` and the source `"xy"`, `count - dsize` wraps to `2^64 - 2`, nothing
is truncated, and bytes 4, 5 and 6 of the array are written. With `count = 4`
it is 0, `len` becomes `2^64 - 1`, and `memcpy` runs off both arrays. -/
theorem strlcat_writes_past_count :
    strlcat (some [97, 98, 99, 100, 0, 0, 0, 0]) [120, 121, 0] 2
      = .ok (some [97, 98, 99, 100, 120, 121, 0, 0], 6) ∧
    strlcat (some [97, 98, 99, 100, 0]) [120, 121, 0] 4 = .error .outOfBounds := by
  constructor <;> rfl
/-! ## Kernel log filter: sequences of calls -/

theorem printk_buf_ignore_out (debug : Bool) (stale : Nat → Nat) (buf : List Nat) :
    (printk_buf debug true stale buf).1 = [] := by
  unfold printk_buf
  split
  · rfl
  · split
    · rfl
    · rfl

theorem printk_buf_ignore_stays (debug : Bool) (stale : Nat → Nat) (buf : List Nat)
    (h : noNewline buf = true) : (printk_buf debug true stale buf).2 = true := by
  unfold printk_buf
  split
  · rfl
  · split
    · rfl
    · simpa using h

theorem printkSeq_suppressed (debug : Bool) :
    ∀ (pre : List ((Nat → Nat) × List Nat)) (c : (Nat → Nat) × List Nat)
      (post : List ((Nat → Nat) × List Nat)),
      (∀ x ∈ pre, noNewline x.2 = true) →
      (printkSeq debug true (pre ++ c :: post)).take (pre.length + 1)
        = List.replicate (pre.length + 1) []
  | [], c, post, _ => by
    simp [printkSeq, printk_buf_ignore_out, List.replicate]
  | x :: pre, c, post, h => by
    have hx : noNewline x.2 = true := h x (List.mem_cons_self _ _)
    have ih := printkSeq_suppressed debug pre c post
      (fun y hy => h y (List.mem_cons_of_mem _ hy))
    simp only [List.cons_append, printkSeq, printk_buf_ignore_out,
      printk_buf_ignore_stays debug x.1 x.2 hx, List.length_cons, List.take_succ_cons]
    show [] :: List.take (pre.length + 1) (printkSeq debug true (pre ++ c :: post)) = _
    rw [ih]
    rfl

theorem printk_buf_tagged (debug : Bool) (stale : Nat → Nat) (c : Nat) (rest : List Nat) :
    printk_buf debug false stale (60 :: c :: 62 :: rest)
      = if debug || c != 55 then (rest, false)
        else ([], noNewline (60 :: c :: 62 :: rest)) := by
  have hm : ((60 :: c :: 62 :: rest) == ldmMarker) = false := by
    simp [ldmMarker, bytes]
  simp [printk_buf, hm, bufAt, strFrom3]

/-- C11: with debug off and the filter Normal, after a call whose rendered text
begins with `<7>` and has no newline, nothing is printed by that call, by any
following fragment without a newline, and by the fragment after them (the
first one with a newline, if there is one). -/
theorem printk_debug_message_fragments_suppressed (stale0 : Nat → Nat) (rest : List Nat)
    (pre : List ((Nat → Nat) × List Nat)) (c : (Nat → Nat) × List Nat)
    (post : List ((Nat → Nat) × List Nat))
    (h0 : noNewline (60 :: 55 :: 62 :: rest) = true)
    (hpre : ∀ x ∈ pre, noNewline x.2 = true) :
    (printkSeq false false ((stale0, 60 :: 55 :: 62 :: rest) :: (pre ++ c :: post))).take
        (pre.length + 2)
      = List.replicate (pre.length + 2) [] := by
  have h1 := printk_buf_tagged false stale0 55 rest
  simp only [Bool.false_or, bne_self_eq_false, Bool.false_eq_true, if_false, h0] at h1
  simp only [printkSeq, h1, List.take_succ_cons]
  rw [printkSeq_suppressed false pre c post hpre]
  rfl

/-- C11 at a concrete input: `"<7>ldm: "`, then `"part"`, `" 1"`, `" ok\n"`,
then `"next\n"`: the first four calls print nothing, the fifth is printed. -/
theorem printk_debug_message_fragments_suppressed_witness :
    noNewline (60 :: 55 :: 62 :: bytes "ldm: ") = true ∧
    (∀ x ∈ [((fun _ => 0 : Nat → Nat), bytes "part"), ((fun _ => 0 : Nat → Nat), bytes " 1")],
      noNewline x.2 = true) ∧
    (printkSeq false false (((fun _ => 0 : Nat → Nat), 60 :: 55 :: 62 :: bytes "ldm: ") ::
        ([((fun _ => 0 : Nat → Nat), bytes "part"), ((fun _ => 0 : Nat → Nat), bytes " 1")]
          ++ ((fun _ => 0 : Nat → Nat), bytes " ok\n")
            :: [((fun _ => 0 : Nat → Nat), bytes "next\n")]))).take
        ([((fun _ => 0 : Nat → Nat), bytes "part"),
          ((fun _ => 0 : Nat → Nat), bytes " 1")].length + 2)
      = List.replicate ([((fun _ => 0 : Nat → Nat), bytes "part"),
          ((fun _ => 0 : Nat → Nat), bytes " 1")].length + 2) [] :=
  ⟨by decide, by simp [noNewline, bytes],
   printk_debug_message_fragments_suppressed (fun _ => 0) (bytes "ldm: ")
     [((fun _ => 0 : Nat → Nat), bytes "part"), ((fun _ => 0 : Nat → Nat), bytes " 1")]
     ((fun _ => 0 : Nat → Nat), bytes " ok\n") [((fun _ => 0 : Nat → Nat), bytes "next\n")]
     (by decide) (by simp [noNewline, bytes])⟩

/-- C12: with debug off the benign marker `" [LDM]"` prints nothing and leaves
`ignore` as it was, in either state; with debug on and the filter Normal it is
printed as it is and the filter stays Normal. -/
theorem printk_benign_marker (ignore : Bool) (stale : Nat → Nat) :
    printk_buf false ignore stale ldmMarker = ([], ignore) ∧
    printk_buf true false stale ldmMarker = (ldmMarker, false) := by
  constructor
  · simp [printk_buf]
  · simp [printk_buf, bufAt, ldmMarker, bytes]

theorem printk_buf_untagged (debug : Bool) (stale : Nat → Nat) (buf : List Nat)
    (hdrop : (!debug && (buf == ldmMarker || spaceDigit buf)) = false)
    (htag : ∀ c rest, buf ≠ 60 :: c :: 62 :: rest)
    (hone : buf = [60] → stale 2 ≠ 62) :
    printk_buf debug false stale buf = (buf, false) := by
  have h1 : (!debug && buf == ldmMarker) = false := by
    cases debug <;> simp_all
  have h2 : (!debug && bufAt stale buf 0 == 32 && isdigit (bufAt stale buf 1)) = false := by
    rw [Bool.and_assoc, bufAt_spaceDigit]
    cases debug <;> simp_all
  have h3 : (bufAt stale buf 0 == 60 && bufAt stale buf 2 == 62) = false := by
    match buf, htag, hone with
    | [], _, _ => simp [bufAt]
    | [a], _, hone =>
      by_cases ha : a = 60
      · subst ha
        simp [bufAt, hone rfl]
      · simp [bufAt, ha]
    | [a, b], _, _ => simp [bufAt]
    | a :: b :: c :: rest, htag, _ =>
      by_cases ha : a = 60
      · subst ha
        have hc : c ≠ 62 := fun h => htag b rest (by rw [h])
        simp [bufAt, hc]
      · simp [bufAt, ha]
  simp [printk_buf, h1, h2, h3]

set_option maxRecDepth 100000 in
/-- C13 at a failing input: in the Normal state with debug off, `"<6>AB"` is
logged (and `AB` printed), then the one-character text `"<"`, which has no tag
and is not dropped. The buffer then holds `<`, the terminator, and the bytes
`>AB` left at `buf[2..]`: the test `buf[2] == '>'` reads past the terminator,
and `AB` is printed instead of `<`. -/
theorem printk_lone_angle_prints_stale_bytes :
    printk_buf false false (fun _ => 0) (bytes "<6>AB") = (bytes "AB", false) ∧
    printk_buf false false (staleAfter (bytes "<6>AB")) (bytes "<") = (bytes "AB", false) := by
  constructor <;> rfl

/-! ## Leaf helpers -/

/-- C15: `hex_to_bin` gives the digit value for `'0'`..`'9'`, 10 to 15 for
`'a'`..`'f'` and for `'A'`..`'F'` (the same value for both cases), and `-1`
for every other character. -/
theorem hex_to_bin_value (ch : Int) :
    hex_to_bin ch =
      if 48 ≤ ch ∧ ch ≤ 57 then ch - 48
      else if 97 ≤ ch ∧ ch ≤ 102 then ch - 97 + 10
      else if 65 ≤ ch ∧ ch ≤ 70 then ch - 65 + 10
      else -1 := by
  unfold hex_to_bin tolower
  dsimp only
  split_ifs <;> omega

theorem toLE_ofLE : ∀ (bs : List Nat), (∀ x ∈ bs, x < 256) → toLE bs.length (ofLE bs) = bs
  | [], _ => rfl
  | b :: bs, h => by
    have hb : b < 256 := h b (List.mem_cons_self _ _)
    have ih := toLE_ofLE bs (fun x hx => h x (List.mem_cons_of_mem _ hx))
    have h1 : (b + 256 * ofLE bs) % 256 = b := by omega
    have h2 : (b + 256 * ofLE bs) / 256 = ofLE bs := by omega
    simp only [List.length_cons, ofLE, toLE, h1, h2, ih]

theorem betoh_loadHost (le : Bool) (w : Nat) (ptr : List Nat) (hb : ∀ x ∈ ptr, x < 256)
    (hw : w ≤ ptr.length) :
    (loadHost le w ptr).map (betoh le w) = .ok (ofBE (ptr.take w)) := by
  have hlen : (ptr.take w).length = w := by simp [hw]
  have hbt : ∀ x ∈ ptr.take w, x < 256 := fun x hx => hb x (List.mem_of_mem_take hx)
  have hrt := toLE_ofLE (ptr.take w) hbt
  rw [hlen] at hrt
  cases le
  · simp [loadHost, hw, betoh, Except.map]
  · simp [loadHost, hw, betoh, Except.map, hrt]

/-- C14: on a little-endian and on a big-endian host alike, for every sequence
of bytes (values below 256) long enough, `get_unaligned_be16`, `_be32` and
`_be64` return the big-endian value of its first 2, 4 and 8 bytes. -/
theorem get_unaligned_be_value (le : Bool) (b : List Nat) (hb : ∀ x ∈ b, x < 256) :
    (2 ≤ b.length → get_unaligned_be16 le b
      = .ok (((List.range 2).map (fun i => b.getD i 0 * 256 ^ (2 - 1 - i))).sum)) ∧
    (4 ≤ b.length → get_unaligned_be32 le b
      = .ok (((List.range 4).map (fun i => b.getD i 0 * 256 ^ (4 - 1 - i))).sum)) ∧
    (8 ≤ b.length → get_unaligned_be64 le b
      = .ok (((List.range 8).map (fun i => b.getD i 0 * 256 ^ (8 - 1 - i))).sum)) := by
  refine ⟨fun h => ?_, fun h => ?_, fun h => ?_⟩
  · rw [get_unaligned_be16, betoh_loadHost le 2 b hb h]
    match b, h with
    | b0 :: b1 :: rest, _ =>
      simp [ofBE, List.range, List.range.loop]
  · rw [get_unaligned_be32, betoh_loadHost le 4 b hb h]
    match b, h with
    | b0 :: b1 :: b2 :: b3 :: rest, _ =>
      simp [ofBE, List.range, List.range.loop]
      ring
  · rw [get_unaligned_be64, betoh_loadHost le 8 b hb h]
    match b, h with
    | b0 :: b1 :: b2 :: b3 :: b4 :: b5 :: b6 :: b7 :: rest, _ =>
      simp [ofBE, List.range, List.range.loop]
      ring

/-- C14 at concrete inputs: `[0x00,0x00,0x00,0x01]` decodes to 1 and
`[0xFF,0xFF,0xFF,0xFF]` to 4294967295 on a little-endian host; 2 and 8 bytes
on a big-endian and a little-endian host. -/
theorem get_unaligned_be_value_witness :
    get_unaligned_be32 true [0, 0, 0, 1] = .ok 1 ∧
    get_unaligned_be32 true [255, 255, 255, 255] = .ok 4294967295 ∧
    get_unaligned_be16 false [18, 52] = .ok 4660 ∧
    get_unaligned_be64 true [1, 35, 69, 103, 137, 171, 205, 239] = .ok 81985529216486895 :=
  ⟨(get_unaligned_be_value true [0, 0, 0, 1] (by decide)).2.1 (by decide),
   (get_unaligned_be_value true [255, 255, 255, 255] (by decide)).2.1 (by decide),
   (get_unaligned_be_value false [18, 52] (by decide)).1 (by decide),
   (get_unaligned_be_value true [1, 35, 69, 103, 137, 171, 205, 239] (by decide)).2.2 (by decide)⟩

/-! ## Tracking allocator: null pointers -/

/-- C16: `__kfree` called with a null pointer returns with the world as it
was: the six counters and the heap are unchanged. -/
theorem kfree_null_is_noop (w : World) : __kfree 0 w = .ok w := by
  simp [__kfree]

/-- C17 at a failing input: when `malloc` returns `NULL`, `__kmalloc` stores
the size through the null pointer: it faults instead of returning `NULL`, for
every size and every world. -/
theorem kmalloc_writes_through_null (size : Nat) (w : World) :
    __kmalloc size 0 w = .error .nullDeref := by
  simp [__kmalloc]

/-! ## Partition table: negative index -/

/-- C20 at a failing input: a table of capacity 4 and the index `-1`. The test
`n < p->limit` passes and the store goes to `parts[-1]`, outside the array. -/
theorem put_partition_negative_index :
    put_partition table4 (-1) 7 9 = .error .outOfBounds := by
  rfl

/-! ## Sector reader: a read followed by its release -/

theorem wrap32_wrap32_add (x y : Int) : wrap32 (wrap32 x + y) = wrap32 (x + y) := by
  obtain ⟨k1, h1⟩ := wrap32_congr (wrap32 x + y)
  obtain ⟨k2, h2⟩ := wrap32_congr x
  obtain ⟨k3, h3⟩ := wrap32_congr (x + y)
  exact cong32_isInt_eq ⟨k1 + k2 - k3, by rw [h1, h2, h3]; ring⟩
    (wrap32_isInt _) (wrap32_isInt _)

theorem wrap32_wrap32_sub (x y : Int) : wrap32 (wrap32 x - y) = wrap32 (x - y) := by
  have := wrap32_wrap32_add x (-y)
  simpa [sub_eq_add_neg] using this

theorem kmalloc_eq (size m : Nat) (w : World) (hm : m ≠ 0) :
    kmalloc size m w = .ok (m + sizeof_int, allocW size m w) := by
  simp [kmalloc, __kmalloc, hm, allocW]

theorem setObj_eq (m : Nat) (o : Obj) (w : World) (b : Block) (hb : w.heap m = some b) :
    setObj (m + sizeof_int) o w = .ok (storeW m b.hdr o w) := by
  simp [setObj, World.blockOf, sizeof_int, hb, storeW]

theorem kfree_eq (m : Nat) (w : World) (b : Block) (hb : w.heap m = some b) :
    kfree (m + sizeof_int) w = .ok (freeW m b.hdr w) := by
  simp [kfree, __kfree, World.blockOf, sizeof_int, hb, freeW]

theorem page_count_eq (m : Nat) (w : World) (hdr c : Int) (bh : Nat)
    (hb : w.heap m = some ⟨hdr, .page c bh⟩) : page_count (m + sizeof_int) w = .ok c := by
  simp [page_count, World.blockOf, sizeof_int, hb]

theorem page_bh_eq (m : Nat) (w : World) (hdr c : Int) (bh : Nat)
    (hb : w.heap m = some ⟨hdr, .page c bh⟩) : page_bh (m + sizeof_int) w = .ok bh := by
  simp [page_bh, World.blockOf, sizeof_int, hb]

theorem bh_b_data_eq (m : Nat) (w : World) (hdr : Int) (d : Nat)
    (hb : w.heap m = some ⟨hdr, .buffer_head d⟩) : bh_b_data (m + sizeof_int) w = .ok d := by
  simp [bh_b_data, World.blockOf, sizeof_int, hb]

theorem lseek_read_eq (offset : Nat) (w : World) (hdev : offset + 512 ≤ w.device.size) :
    lseek offset w = ((offset : Int), { w with io := w.io ++ [.lseek offset], pos := offset }) ∧
    read 512 { w with io := w.io ++ [.lseek offset], pos := offset }
      = (512, sectorBytes w.device offset, sectorReadW offset w) := by
  constructor
  · simp [lseek]
  · have h : min 512 (w.device.size - offset) = 512 := by omega
    simp [read, toSizeT, h, sectorBytes, sectorReadW]

theorem ldm_bread_ok (dev : Nat) (block : Int) (m_bh m_data : Nat) (w : World)
    (hbh : m_bh ≠ 0) (hdata : m_data ≠ 0) (hne : m_bh ≠ m_data)
    (hblk : 0 ≤ block) (hdev : (block * 512).toNat + 512 ≤ w.device.size) :
    ldm_bread dev block 512 m_bh m_data w = .ok (m_bh + sizeof_int, breadW block m_bh m_data w) := by
  unfold breadW
  have e1 := kmalloc_eq sizeof_buffer_head m_bh w hbh
  have hh1 : (allocW sizeof_buffer_head m_bh w).heap m_bh = some ⟨wrap32 80, .raw⟩ := by
    simp [sizeof_buffer_head]
  have e2 := setObj_eq m_bh (.buffer_head 0) _ _ hh1
  have e3 := kmalloc_eq 512 m_data
    (storeW m_bh (wrap32 80) (.buffer_head 0) (allocW sizeof_buffer_head m_bh w)) hdata
  have hh3 : (allocW 512 m_data
      (storeW m_bh (wrap32 80) (.buffer_head 0) (allocW sizeof_buffer_head m_bh w))).heap m_bh
      = some ⟨wrap32 80, .buffer_head 0⟩ := by
    simp [hne]
  have e4 := setObj_eq m_bh (.buffer_head (m_data + sizeof_int)) _ _ hh3
  have hoff : ((block * 512).toNat : Int) = block * 512 := by omega
  have e5 := lseek_read_eq (block * 512).toNat
    (storeW m_bh (wrap32 80) (.buffer_head (m_data + sizeof_int)) (allocW 512 m_data
      (storeW m_bh (wrap32 80) (.buffer_head 0) (allocW sizeof_buffer_head m_bh w))))
    (by simpa using hdev)
  rw [hoff] at e5
  have hh5 : (sectorReadW (block * 512).toNat
      (storeW m_bh (wrap32 80) (.buffer_head (m_data + sizeof_int)) (allocW 512 m_data
        (storeW m_bh (wrap32 80) (.buffer_head 0) (allocW sizeof_buffer_head m_bh w))))).heap m_data
      = some ⟨wrap32 512, .raw⟩ := by
    simp [Ne.symm hne]
  have e6 := setObj_eq m_data (.data (sectorBytes w.device (block * 512).toNat)) _ _ hh5
  have hsz : (toSizeT 512).toNat = 512 := by decide
  have hbh4 : m_bh + sizeof_int ≠ 0 := by simp [sizeof_int]
  have hnlt : ¬ (block * 512 < 0) := by omega
  simp only [ldm_bread, bind, Except.bind, pure, Except.pure, e1, hbh4, ne_eq, not_false_eq_true,
    if_true, e2, hsz, e3, e4, e5.1, e5.2, hnlt, if_false]
  simp only [storeW_device, allocW_device]
  rw [e6]
  simp [sizeof_buffer_head]

theorem breadW_heap_other (block : Int) (m_bh m_data a : Nat) (w : World)
    (h1 : a ≠ m_bh) (h2 : a ≠ m_data) : (breadW block m_bh m_data w).heap a = w.heap a := by
  simp [breadW, h1, h2]

theorem read_dev_sector_ok (bd n : Nat) (s0 : Sector) (m_pg m_bh m_data : Nat) (w : World)
    (hpg : m_pg ≠ 0) (hbh : m_bh ≠ 0) (hdata : m_data ≠ 0)
    (h1 : m_pg ≠ m_bh) (h2 : m_pg ≠ m_data) (h3 : m_bh ≠ m_data)
    (hblk : 0 ≤ wrap32 n) (hdev : (wrap32 n * 512).toNat + 512 ≤ w.device.size) :
    read_dev_sector (some bd) n (some s0) m_pg m_bh m_data w
      = .ok (m_data + sizeof_int, some ⟨m_pg + sizeof_int⟩, readW n m_pg m_bh m_data w) := by
  have e1 := kmalloc_eq sizeof_page m_pg w hpg
  have hh1 : (allocW sizeof_page m_pg w).heap m_pg = some ⟨wrap32 16, .raw⟩ := by
    simp [sizeof_page]
  have e2 := setObj_eq m_pg (.page 0 0) _ _ hh1
  have hh2 : (storeW m_pg (wrap32 16) (.page 0 0) (allocW sizeof_page m_pg w)).heap m_pg
      = some ⟨wrap32 16, .page 0 0⟩ := by simp
  have e3 := page_count_eq m_pg _ _ _ _ hh2
  have e4 := setObj_eq m_pg (.page (wrap32 (0 + 1)) 0) _ _ hh2
  have e5 := ldm_bread_ok bd (wrap32 n) m_bh m_data
    (storeW m_pg (wrap32 16) (.page (wrap32 (0 + 1)) 0)
      (storeW m_pg (wrap32 16) (.page 0 0) (allocW sizeof_page m_pg w)))
    hbh hdata h3 hblk (by simpa using hdev)
  have hh5 : (breadW (wrap32 n) m_bh m_data
      (storeW m_pg (wrap32 16) (.page (wrap32 (0 + 1)) 0)
        (storeW m_pg (wrap32 16) (.page 0 0) (allocW sizeof_page m_pg w)))).heap m_pg
      = some ⟨wrap32 16, .page (wrap32 (0 + 1)) 0⟩ := by
    rw [breadW_heap_other _ _ _ _ _ h1 h2]; simp
  have e6 := page_count_eq m_pg _ _ _ _ hh5
  have e7 := setObj_eq m_pg (.page (wrap32 (0 + 1)) (m_bh + sizeof_int)) _ _ hh5
  have hh7 : (storeW m_pg (wrap32 16) (.page (wrap32 (0 + 1)) (m_bh + sizeof_int))
      (breadW (wrap32 n) m_bh m_data
        (storeW m_pg (wrap32 16) (.page (wrap32 (0 + 1)) 0)
          (storeW m_pg (wrap32 16) (.page 0 0) (allocW sizeof_page m_pg w))))).heap m_bh
      = some ⟨wrap32 80, .buffer_head (m_data + sizeof_int)⟩ := by
    simp [breadW, Ne.symm h1, h3]
  have e8 := bh_b_data_eq m_bh _ _ _ hh7
  have hpg4 : m_pg + sizeof_int ≠ 0 := by simp [sizeof_int]
  have hbh4 : m_bh + sizeof_int ≠ 0 := by simp [sizeof_int]
  simp only [read_dev_sector, bind, Except.bind, pure, Except.pure, e1, hpg4, if_false, e2, e3,
    e4, e5, hbh4, e6, e7, e8]
  simp [readW, sizeof_page]

theorem readW_heap (n m_pg m_bh m_data : Nat) (w : World)
    (h1 : m_pg ≠ m_bh) (h2 : m_pg ≠ m_data) (h3 : m_bh ≠ m_data) :
    (readW n m_pg m_bh m_data w).heap m_pg
      = some ⟨wrap32 16, .page (wrap32 (0 + 1)) (m_bh + sizeof_int)⟩ ∧
    (readW n m_pg m_bh m_data w).heap m_bh
      = some ⟨wrap32 80, .buffer_head (m_data + sizeof_int)⟩ ∧
    (∃ bs, (readW n m_pg m_bh m_data w).heap m_data = some ⟨wrap32 512, .data bs⟩) := by
  refine ⟨by simp [readW], by simp [readW, breadW, Ne.symm h1, h3], ?_⟩
  simp [readW, breadW, Ne.symm h2]

theorem readW_counters (n m_pg m_bh m_data : Nat) (w : World) :
    (readW n m_pg m_bh m_data w).ldm_mem_alloc = wrap32 (w.ldm_mem_alloc + 3) ∧
    (readW n m_pg m_bh m_data w).ldm_mem_free = w.ldm_mem_free ∧
    (readW n m_pg m_bh m_data w).ldm_mem_size = wrap32 (w.ldm_mem_size + 608) ∧
    (readW n m_pg m_bh m_data w).ldm_mem_count = wrap32 (w.ldm_mem_count + 3) := by
  refine ⟨?_, ?_, ?_, ?_⟩
  · simp only [readW, breadW, storeW_ldm_mem_alloc, sectorReadW_ldm_mem_alloc,
      allocW_ldm_mem_alloc, wrap32_wrap32_add]
    congr 1; ring
  · simp only [readW, breadW, storeW_ldm_mem_free, sectorReadW_ldm_mem_free,
      allocW_ldm_mem_free]
  · simp only [readW, breadW, storeW_ldm_mem_size, sectorReadW_ldm_mem_size,
      allocW_ldm_mem_size, wrap32_add_size, wrap32_wrap32_add]
    congr 1; push_cast; ring
  · simp only [readW, breadW, storeW_ldm_mem_count, sectorReadW_ldm_mem_count,
      allocW_ldm_mem_count, wrap32_wrap32_add]
    congr 1; ring

theorem readW_freed (n m_pg m_bh m_data : Nat) (w : World) :
    (readW n m_pg m_bh m_data w).freed = w.freed := by
  simp only [readW, breadW, storeW_freed, sectorReadW_freed, allocW_freed]

theorem put_page_readW (n m_pg m_bh m_data : Nat) (w : World)
    (h1 : m_pg ≠ m_bh) (h2 : m_pg ≠ m_data) (h3 : m_bh ≠ m_data) :
    put_page (m_pg + sizeof_int) (readW n m_pg m_bh m_data w)
      = .ok (freeW m_pg (wrap32 16) (freeW m_bh (wrap32 80) (freeW m_data (wrap32 512)
          (readW n m_pg m_bh m_data w)))) ∧
    run (readW n m_pg m_bh m_data w)
        [.free (m_data + sizeof_int), .free (m_bh + sizeof_int), .free (m_pg + sizeof_int)]
      = .ok (freeW m_pg (wrap32 16) (freeW m_bh (wrap32 80) (freeW m_data (wrap32 512)
          (readW n m_pg m_bh m_data w)))) := by
  obtain ⟨hp, hb, bs, hd⟩ := readW_heap n m_pg m_bh m_data w h1 h2 h3
  have e1 := page_bh_eq m_pg _ _ _ _ hp
  have e2 := bh_b_data_eq m_bh _ _ _ hb
  have e3 := kfree_eq m_data _ _ hd
  have hp2 : (freeW m_data (wrap32 512) (readW n m_pg m_bh m_data w)).heap m_pg
      = some ⟨wrap32 16, .page (wrap32 (0 + 1)) (m_bh + sizeof_int)⟩ := by
    simp [h2, hp]
  have hb2 : (freeW m_data (wrap32 512) (readW n m_pg m_bh m_data w)).heap m_bh
      = some ⟨wrap32 80, .buffer_head (m_data + sizeof_int)⟩ := by
    simp [h3, hb]
  have e4 := page_bh_eq m_pg _ _ _ _ hp2
  have e5 := kfree_eq m_bh _ _ hb2
  have hp3 : (freeW m_bh (wrap32 80) (freeW m_data (wrap32 512)
      (readW n m_pg m_bh m_data w))).heap m_pg
      = some ⟨wrap32 16, .page (wrap32 (0 + 1)) (m_bh + sizeof_int)⟩ := by
    simp [h1, h2, hp]
  have e6 := kfree_eq m_pg _ _ hp3
  constructor
  · simp only [put_page, bind, Except.bind, e1, e2, e3, e4, e5, e6]
  · simp only [run, step]
    simp only [kfree] at e3 e5 e6
    simp only [e3, e5, e6]

/-- C18: when the three allocations succeed at distinct addresses and the
device holds the whole sector, `read_dev_sector` succeeds without releasing
anything, and the following `put_dev_sector` succeeds through `put_page`. The
calls of `free` it adds to the record `freed` are exactly three: the data
block, then the buffer record, then the page record. Afterwards `ldm_mem_size`
and `ldm_mem_count` are what they were before the read, and `ldm_mem_alloc` and
`ldm_mem_free` have each grown by 3. -/
theorem read_release_pair_balanced (bd n : Nat) (s0 : Sector) (m_pg m_bh m_data : Nat)
    (w : World) (hpg : m_pg ≠ 0) (hbh : m_bh ≠ 0) (hdata : m_data ≠ 0)
    (h1 : m_pg ≠ m_bh) (h2 : m_pg ≠ m_data) (h3 : m_bh ≠ m_data)
    (hblk : 0 ≤ wrap32 n) (hdev : (wrap32 n * 512).toNat + 512 ≤ w.device.size)
    (hs : isInt w.ldm_mem_size) (hc : isInt w.ldm_mem_count)
    (ha : isInt (w.ldm_mem_alloc + 3)) (hf : isInt (w.ldm_mem_free + 3)) :
    ∃ w1 w2,
      read_dev_sector (some bd) n (some s0) m_pg m_bh m_data w
        = .ok (m_data + sizeof_int, some ⟨m_pg + sizeof_int⟩, w1) ∧
      put_dev_sector ⟨m_pg + sizeof_int⟩ w1 = .ok (⟨0⟩, w2) ∧
      put_page (m_pg + sizeof_int) w1 = .ok w2 ∧
      run w1 [.free (m_data + sizeof_int), .free (m_bh + sizeof_int),
        .free (m_pg + sizeof_int)] = .ok w2 ∧
      w1.freed = w.freed ∧ w2.freed = w.freed ++ [m_data, m_bh, m_pg] ∧
      w2.ldm_mem_size = w.ldm_mem_size ∧ w2.ldm_mem_count = w.ldm_mem_count ∧
      w2.ldm_mem_alloc = w.ldm_mem_alloc + 3 ∧ w2.ldm_mem_free = w.ldm_mem_free + 3 := by
  obtain ⟨hput, hrun⟩ := put_page_readW n m_pg m_bh m_data w h1 h2 h3
  obtain ⟨hca, hcf, hcs, hcc⟩ := readW_counters n m_pg m_bh m_data w
  have e512 : wrap32 512 = 512 := by decide
  have e80 : wrap32 80 = 80 := by decide
  have e16 : wrap32 16 = 16 := by decide
  refine ⟨readW n m_pg m_bh m_data w, _,
    read_dev_sector_ok bd n s0 m_pg m_bh m_data w hpg hbh hdata h1 h2 h3 hblk hdev,
    ?_, hput, hrun, readW_freed n m_pg m_bh m_data w, ?_, ?_, ?_, ?_, ?_⟩
  · simp only [put_dev_sector, bind, Except.bind, hput, pure, Except.pure]
  · simp only [freeW_freed, readW_freed, List.append_assoc, List.singleton_append]
    rfl
  · simp only [freeW_ldm_mem_size, hcs, wrap32_wrap32_sub, e512, e80, e16]
    rw [show w.ldm_mem_size + 608 - 512 - 80 - 16 = w.ldm_mem_size by ring]
    exact wrap32_of_isInt hs
  · simp only [freeW_ldm_mem_count, hcc, wrap32_wrap32_sub]
    rw [show w.ldm_mem_count + 3 - 1 - 1 - 1 = w.ldm_mem_count by ring]
    exact wrap32_of_isInt hc
  · simp only [freeW_ldm_mem_alloc, hca]
    exact wrap32_of_isInt ha
  · simp only [freeW_ldm_mem_free, hcf, wrap32_wrap32_add]
    rw [show w.ldm_mem_free + 1 + 1 + 1 = w.ldm_mem_free + 3 by ring]
    exact wrap32_of_isInt hf

/-- C18 at a concrete input: sector 3 of the 4 TiB device, from the initial
world, with blocks at 4096, 8192 and 12288. -/
theorem read_release_pair_balanced_witness :
    (4096 ≠ 0 ∧ 8192 ≠ 0 ∧ 12288 ≠ 0 ∧ 4096 ≠ 8192 ∧ 4096 ≠ 12288 ∧ 8192 ≠ 12288) ∧
    0 ≤ wrap32 (3 : Nat) ∧
    (wrap32 (3 : Nat) * 512).toNat + 512 ≤ (World.init bigDevice).device.size ∧
    ∃ w1 w2,
      read_dev_sector (some 0) 3 (some ⟨0⟩) 4096 8192 12288 (World.init bigDevice)
        = .ok (12288 + sizeof_int, some ⟨4096 + sizeof_int⟩, w1) ∧
      put_dev_sector ⟨4096 + sizeof_int⟩ w1 = .ok (⟨0⟩, w2) ∧
      put_page (4096 + sizeof_int) w1 = .ok w2 ∧
      run w1 [.free (12288 + sizeof_int), .free (8192 + sizeof_int),
        .free (4096 + sizeof_int)] = .ok w2 ∧
      w1.freed = (World.init bigDevice).freed ∧
      w2.freed = (World.init bigDevice).freed ++ [12288, 8192, 4096] ∧
      w2.ldm_mem_size = (World.init bigDevice).ldm_mem_size ∧
      w2.ldm_mem_count = (World.init bigDevice).ldm_mem_count ∧
      w2.ldm_mem_alloc = (World.init bigDevice).ldm_mem_alloc + 3 ∧
      w2.ldm_mem_free = (World.init bigDevice).ldm_mem_free + 3 :=
  ⟨by decide, by decide, by decide,
   read_release_pair_balanced 0 3 ⟨0⟩ 4096 8192 12288 (World.init bigDevice)
     (by decide) (by decide) (by decide) (by decide) (by decide) (by decide)
     (by decide) (by decide) (by decide) (by decide) (by decide) (by decide)⟩

/-! ## Doubly linked lists -/

theorem linked_cons2 (m : ListMem) (a b : Nat) (r : List Nat) :
    linked m (a :: b :: r) = true ↔ m.next a = b ∧ m.prev b = a ∧ linked m (b :: r) = true := by
  simp [linked, and_assoc]

theorem linked_frame (m m1 : ListMem) : ∀ (l : List Nat) (a : Nat),
    linked m (a :: l) = true →
    (∀ x ∈ (a :: l).dropLast, m1.next x = m.next x) →
    (∀ y ∈ l, m1.prev y = m.prev y) →
    linked m1 (a :: l) = true
  | [], _, _, _, _ => by simp [linked]
  | b :: r, a, h, hn, hp => by
    rw [linked_cons2] at h ⊢
    obtain ⟨h1, h2, h3⟩ := h
    refine ⟨?_, ?_, ?_⟩
    · rw [hn a (by simp), h1]
    · rw [hp b (by simp), h2]
    · refine linked_frame m m1 r b h3 (fun x hx => hn x ?_) (fun y hy => hp y ?_)
      · simp only [List.dropLast_cons₂, List.mem_cons]
        exact Or.inr hx
      · exact List.mem_cons_of_mem _ hy

theorem linked_snoc (m : ListMem) (a b : Nat) : ∀ (l : List Nat),
    (linked m (l ++ [a, b]) = true ↔
      linked m (l ++ [a]) = true ∧ m.next a = b ∧ m.prev b = a)
  | [] => by simp [linked]
  | [c] => by
    simp only [List.singleton_append, linked_cons2]
    simp [linked]
    tauto
  | c :: d :: r => by
    have ih := linked_snoc m a b (d :: r)
    simp only [List.cons_append, linked_cons2] at ih ⊢
    rw [ih]
    tauto

theorem list_add_next (new head : Nat) (m : ListMem) (x : Nat) :
    (list_add new head m).next x
      = if x = head then new else if x = new then m.next head else m.next x := by
  simp [list_add, __list_add, ListMem.setNext, ListMem.setPrev]

theorem list_add_prev (new head : Nat) (m : ListMem) (x : Nat) :
    (list_add new head m).prev x
      = if x = new then head else if x = m.next head then new else m.prev x := by
  simp [list_add, __list_add, ListMem.setNext, ListMem.setPrev]

theorem list_add_tail_next (new head : Nat) (m : ListMem) (x : Nat) :
    (list_add_tail new head m).next x
      = if x = m.prev head then new else if x = new then head else m.next x := by
  simp [list_add_tail, __list_add, ListMem.setNext, ListMem.setPrev]

theorem list_add_tail_prev (new head : Nat) (m : ListMem) (x : Nat) :
    (list_add_tail new head m).prev x
      = if x = new then m.prev head else if x = head then new else m.prev x := by
  simp [list_add_tail, __list_add, ListMem.setNext, ListMem.setPrev]

theorem isList_init (head : Nat) (m : ListMem) : IsList (INIT_LIST_HEAD head m) head [] := by
  simp [IsList, linked, INIT_LIST_HEAD, ListMem.setNext, ListMem.setPrev]

theorem isList_list_add (m : ListMem) (head new : Nat) (xs : List Nat)
    (h : IsList m head xs) (hnew : new ∉ head :: xs) :
    IsList (list_add new head m) head (new :: xs) := by
  obtain ⟨hnd, hl⟩ := h
  have hnh : new ≠ head := fun e => hnew (e ▸ List.mem_cons_self _ _)
  have hnx : new ∉ xs := fun e => hnew (List.mem_cons_of_mem _ e)
  have hhx : head ∉ xs := (List.nodup_cons.mp hnd).1
  refine ⟨?_, ?_⟩
  · rw [List.nodup_cons]
    refine ⟨?_, List.nodup_cons.mpr ⟨hnx, (List.nodup_cons.mp hnd).2⟩⟩
    simp only [List.mem_cons, not_or]
    exact ⟨Ne.symm hnh, hhx⟩
  · cases xs with
    | nil =>
      simp only [List.nil_append, linked_cons2, List.cons_append] at hl ⊢
      obtain ⟨h1, h2, -⟩ := hl
      simp [list_add_next, list_add_prev, h1, hnh, Ne.symm hnh, linked]
    | cons x1 r =>
      simp only [List.cons_append, linked_cons2] at hl ⊢
      obtain ⟨h1, h2, h3⟩ := hl
      have hx1n : x1 ≠ new := fun e => hnx (e ▸ List.mem_cons_self _ _)
      have hx1h : x1 ≠ head := fun e => hhx (e ▸ List.mem_cons_self _ _)
      refine ⟨by simp [list_add_next], by simp [list_add_prev], ?_, ?_, ?_⟩
      · simp [list_add_next, hnh, h1]
      · simp [list_add_prev, hx1n, h1]
      · refine linked_frame m _ (r ++ [head]) x1 h3 ?_ ?_
        · intro x hx
          have hx2 : x ∈ x1 :: r := by
            have : (x1 :: (r ++ [head])).dropLast = x1 :: r := by
              rw [← List.cons_append, List.dropLast_concat]
            rwa [this] at hx
          have hxh : x ≠ head := fun e => hhx (e ▸ hx2)
          have hxn : x ≠ new := fun e => hnx (e ▸ hx2)
          simp [list_add_next, hxh, hxn]
        · intro y hy
          have hyn : y ≠ new := by
            intro e
            rcases List.mem_append.mp hy with hy | hy
            · exact hnx (List.mem_cons_of_mem _ (e ▸ hy))
            · simp only [List.mem_singleton] at hy
              exact hnh (e ▸ hy)
          have hyx : y ≠ x1 := by
            intro e
            rcases List.mem_append.mp hy with hy | hy
            · have := (List.nodup_cons.mp (List.nodup_cons.mp hnd).2).1
              exact this (e ▸ hy)
            · simp only [List.mem_singleton] at hy
              exact hx1h (e ▸ hy)
          simp [list_add_prev, hyn, h1, hyx]

theorem isList_list_add_tail (m : ListMem) (head new : Nat) (xs : List Nat)
    (h : IsList m head xs) (hnew : new ∉ head :: xs) :
    IsList (list_add_tail new head m) head (xs ++ [new]) := by
  obtain ⟨hnd, hl⟩ := h
  have hnh : new ≠ head := fun e => hnew (e ▸ List.mem_cons_self _ _)
  have hnx : new ∉ xs := fun e => hnew (List.mem_cons_of_mem _ e)
  have hhx : head ∉ xs := (List.nodup_cons.mp hnd).1
  have hxsnd : xs.Nodup := (List.nodup_cons.mp hnd).2
  refine ⟨?_, ?_⟩
  · rw [List.nodup_cons]
    refine ⟨?_, ?_⟩
    · simp only [List.mem_append, List.mem_singleton, not_or]
      exact ⟨hhx, Ne.symm hnh⟩
    · rw [List.nodup_append]
      refine ⟨hxsnd, List.nodup_singleton _, ?_⟩
      intro a ha hb
      simp only [List.mem_singleton] at hb
      exact hnx (hb ▸ ha)
  · rcases List.eq_nil_or_concat xs with rfl | ⟨r, xk, hxs⟩
    · simp only [List.nil_append, linked_cons2, List.cons_append] at hl ⊢
      obtain ⟨h1, h2, -⟩ := hl
      simp [list_add_tail_next, list_add_tail_prev, h2, hnh, Ne.symm hnh, linked]
    · rw [List.concat_eq_append] at hxs
      subst hxs
      have hl2 : linked m ((head :: r) ++ [xk, head]) = true := by
        simpa [List.append_assoc] using hl
      rw [linked_snoc] at hl2
      obtain ⟨h3, h1, h2⟩ := hl2
      have hxkn : xk ≠ new := fun e => hnx (by rw [← e]; simp)
      have hxkh : xk ≠ head := fun e => hhx (by rw [← e]; simp)
      have hgoal : linked (list_add_tail new head m) (((head :: r) ++ [xk]) ++ [new, head])
          = true := by
        rw [linked_snoc]
        refine ⟨?_, ?_, ?_⟩
        · have : (head :: r) ++ [xk] ++ [new] = (head :: r) ++ [xk, new] := by simp
          rw [this, linked_snoc]
          refine ⟨?_, ?_, ?_⟩
          · refine linked_frame m _ (r ++ [xk]) head (by simpa using h3) ?_ ?_
            · intro x hx
              have hx2 : x ∈ head :: r := by
                have : (head :: (r ++ [xk])).dropLast = head :: r := by
                  rw [← List.cons_append, List.dropLast_concat]
                rwa [this] at hx
              have hxxk : x ≠ xk := by
                intro e
                rcases List.mem_cons.mp hx2 with hx3 | hx3
                · exact hxkh (e.symm.trans hx3)
                · have := (List.nodup_append.mp hxsnd).2.2
                  exact this (e ▸ hx3) (List.mem_singleton_self _)
              have hxn : x ≠ new := by
                intro e
                rcases List.mem_cons.mp hx2 with hx3 | hx3
                · exact hnh (e.symm.trans hx3)
                · exact hnx (by rw [← e]; simp [hx3])
              simp [list_add_tail_next, h2, hxxk, hxn]
            · intro y hy
              have hyn : y ≠ new := fun e => hnx (e ▸ hy)
              have hyh : y ≠ head := fun e => hhx (e ▸ hy)
              simp [list_add_tail_prev, hyn, hyh]
          · simp [list_add_tail_next, h2]
          · simp [list_add_tail_prev, h2]
        · simp [list_add_tail_next, h2, Ne.symm hxkn]
        · simp [list_add_tail_prev, Ne.symm hnh]
      simpa [List.append_assoc] using hgoal

theorem linked_prev_next (m : ListMem) : ∀ (l : List Nat) (a : Nat),
    linked m (a :: l) = true → ∀ x ∈ (a :: l).dropLast, m.prev (m.next x) = x
  | [], _, _, x, hx => by simp at hx
  | b :: r, a, h, x, hx => by
    rw [linked_cons2] at h
    obtain ⟨h1, h2, h3⟩ := h
    simp only [List.dropLast_cons₂, List.mem_cons] at hx
    rcases hx with rfl | hx
    · rw [h1, h2]
    · exact linked_prev_next m r b h3 x hx

theorem linked_next_prev (m : ListMem) : ∀ (l : List Nat) (a : Nat),
    linked m (a :: l) = true → ∀ y ∈ l, m.next (m.prev y) = y
  | [], _, _, y, hy => by simp at hy
  | b :: r, a, h, y, hy => by
    rw [linked_cons2] at h
    obtain ⟨h1, h2, h3⟩ := h
    rcases List.mem_cons.mp hy with rfl | hy
    · rw [h2, h1]
    · exact linked_next_prev m r b h3 y hy

theorem wellFormed_of_isList (m : ListMem) (head : Nat) (xs : List Nat)
    (h : IsList m head xs) : WellFormed m (head :: xs) := by
  obtain ⟨-, hl⟩ := h
  intro x hx
  constructor
  · refine linked_prev_next m (xs ++ [head]) head (by simpa using hl) x ?_
    have : (head :: (xs ++ [head])).dropLast = head :: xs := by
      rw [← List.cons_append, List.dropLast_concat]
    rwa [this]
  · refine linked_next_prev m (xs ++ [head]) head (by simpa using hl) x ?_
    rcases List.mem_cons.mp hx with rfl | hx
    · simp
    · simp [hx]

theorem isList_foldl_add_tail (head : Nat) : ∀ (nodes : List Nat) (m : ListMem) (xs : List Nat),
    IsList m head xs → (head :: (xs ++ nodes)).Nodup →
    IsList (nodes.foldl (fun m n => list_add_tail n head m) m) head (xs ++ nodes)
  | [], m, xs, h, _ => by simpa using h
  | n :: rest, m, xs, h, hnd => by
    have hn : n ∉ head :: xs := by
      intro hmem
      have h1 := List.nodup_cons.mp hnd
      rcases List.mem_cons.mp hmem with e | e
      · exact h1.1 (by rw [← e]; simp)
      · have := (List.nodup_append.mp h1.2).2.2
        exact this e (List.mem_cons_self _ _)
    have h2 := isList_list_add_tail m head n xs h hn
    have h3 := isList_foldl_add_tail head rest (list_add_tail n head m) (xs ++ [n]) h2
      (by simpa [List.append_assoc] using hnd)
    simpa [List.append_assoc] using h3

theorem isList_foldl_add (head : Nat) : ∀ (nodes : List Nat) (m : ListMem) (xs : List Nat),
    IsList m head xs → (head :: (nodes ++ xs)).Nodup →
    IsList (nodes.foldl (fun m n => list_add n head m) m) head (nodes.reverse ++ xs)
  | [], m, xs, h, _ => by simpa using h
  | n :: rest, m, xs, h, hnd => by
    have h1 := List.nodup_cons.mp hnd
    have h4 : (n :: (rest ++ xs)).Nodup := by simpa using h1.2
    have hn : n ∉ head :: xs := by
      intro hmem
      rcases List.mem_cons.mp hmem with e | e
      · exact h1.1 (by rw [← e]; simp)
      · exact (List.nodup_cons.mp h4).1 (List.mem_append_right _ e)
    have h2 := isList_list_add m head n xs h hn
    have hnd2 : (head :: (rest ++ n :: xs)).Nodup := by
      rw [List.nodup_cons]
      refine ⟨?_, List.nodup_middle.mpr h4⟩
      intro hmem
      apply h1.1
      rcases List.mem_append.mp hmem with e | e
      · simp [e]
      · rcases List.mem_cons.mp e with e | e
        · simp [e]
        · simp [e]
    have h3 := isList_foldl_add head rest (list_add n head m) (n :: xs) h2 hnd2
    simpa [List.append_assoc] using h3

/-- C19: `INIT_LIST_HEAD` makes the sentinel its own `next` and `prev`. For
a circular list with sentinel `head` holding the distinct nodes `xs` and a node
`new` not among them, `list_add` yields the list `new :: xs` and
`list_add_tail` the list `xs ++ [new]`, and in both every node `x` satisfies
`x->next->prev == x` and `x->prev->next == x`. Hence adding distinct nodes to a
fresh list with `list_add_tail` yields them in insertion order, and with
`list_add` in reverse order. -/
theorem list_add_order (m : ListMem) (head new : Nat) (xs nodes : List Nat) :
    ((INIT_LIST_HEAD head m).next head = head ∧ (INIT_LIST_HEAD head m).prev head = head ∧
      IsList (INIT_LIST_HEAD head m) head []) ∧
    (IsList m head xs → new ∉ head :: xs →
      IsList (list_add new head m) head (new :: xs) ∧
      WellFormed (list_add new head m) (head :: new :: xs) ∧
      IsList (list_add_tail new head m) head (xs ++ [new]) ∧
      WellFormed (list_add_tail new head m) (head :: (xs ++ [new]))) ∧
    ((head :: nodes).Nodup →
      IsList (addAllTail head nodes m) head nodes ∧
      IsList (addAllHead head nodes m) head nodes.reverse) := by
  refine ⟨⟨?_, ?_, isList_init head m⟩, ?_, ?_⟩
  · simp [INIT_LIST_HEAD, ListMem.setNext, ListMem.setPrev]
  · simp [INIT_LIST_HEAD, ListMem.setNext, ListMem.setPrev]
  · intro h hnew
    have h1 := isList_list_add m head new xs h hnew
    have h2 := isList_list_add_tail m head new xs h hnew
    exact ⟨h1, wellFormed_of_isList _ _ _ h1, h2, wellFormed_of_isList _ _ _ h2⟩
  · intro hnd
    constructor
    · have := isList_foldl_add_tail head nodes (INIT_LIST_HEAD head m) [] (isList_init head m)
        (by simpa using hnd)
      simpa [addAllTail] using this
    · have := isList_foldl_add head nodes (INIT_LIST_HEAD head m) [] (isList_init head m)
        (by simpa using hnd)
      simpa [addAllHead] using this

/-- C19 at a concrete input: the sentinel at 100 with the nodes 1 and 2 and
the new node 3; the nodes 1, 2, 3 added to a fresh list. -/
theorem list_add_order_witness :
    IsList (addAllTail 100 [1, 2] blankListMem) 100 [1, 2] ∧ 3 ∉ [100, 1, 2] ∧
    [100, 1, 2, 3].Nodup ∧
    IsList (list_add 3 100 (addAllTail 100 [1, 2] blankListMem)) 100 [3, 1, 2] ∧
    IsList (list_add_tail 3 100 (addAllTail 100 [1, 2] blankListMem)) 100 [1, 2, 3] ∧
    IsList (addAllTail 100 [1, 2, 3] (addAllTail 100 [1, 2] blankListMem)) 100 [1, 2, 3] ∧
    IsList (addAllHead 100 [1, 2, 3] (addAllTail 100 [1, 2] blankListMem)) 100 [3, 2, 1] :=
  ⟨by decide, by decide, by decide,
   ((list_add_order (addAllTail 100 [1, 2] blankListMem) 100 3 [1, 2] [1, 2, 3]).2.1
      (by decide) (by decide)).1,
   ((list_add_order (addAllTail 100 [1, 2] blankListMem) 100 3 [1, 2] [1, 2, 3]).2.1
      (by decide) (by decide)).2.2.1,
   ((list_add_order (addAllTail 100 [1, 2] blankListMem) 100 3 [1, 2] [1, 2, 3]).2.2
      (by decide)).1,
   ((list_add_order (addAllTail 100 [1, 2] blankListMem) 100 3 [1, 2] [1, 2, 3]).2.2
      (by decide)).2⟩

end Ldminfo
